import Mathlib

/-!
Verification of the agitiser-rs config-mutation engine and event pipeline.

The JSON settings document is embedded as the inductive `JVal` (objects are
association lists in insertion order, as produced by the serde map used by
the program).  The Claude hook mutator, the Codex notify mutator, the event
normalizer and the template resolver are translated from
`src/integrations/claude.rs`, `src/integrations/codex.rs`, `src/event.rs`
and `src/template.rs`.
-/

namespace Agitiser

/-- Tests whether the first character list is an initial segment of the second. -/
def listStarts : List Char → List Char → Bool
  | [], _ => true
  | _ :: _, [] => false
  | a :: as, b :: bs => a == b && listStarts as bs

/-- Tests whether the first character list occurs contiguously in the second. -/
def listInfix (needle : List Char) : List Char → Bool
  | [] => needle.isEmpty
  | c :: rest => listStarts needle (c :: rest) || listInfix needle rest

/-- Model of Rust `str::contains` with a literal pattern. -/
def strContains (haystack needle : String) : Bool :=
  listInfix needle.toList haystack.toList

/-- Model of Rust `str::to_ascii_lowercase` (`Char.toLower` only lowers
ASCII letters, exactly as the Rust byte-wise function does). -/
def strLower (s : String) : String :=
  String.mk (s.toList.map Char.toLower)

/-- Model of Rust `str::trim`: strips leading and trailing whitespace. -/
def strTrim (s : String) : String :=
  String.mk (((s.toList.dropWhile Char.isWhitespace).reverse.dropWhile
    Char.isWhitespace).reverse)

/-- Model of Rust `str::is_empty`. -/
def strIsEmpty (s : String) : Bool :=
  s.toList.isEmpty

/-- Worker of `splitChar`: splits at every character satisfying the
predicate, keeping empty segments. -/
def splitByGo (p : Char → Bool) : List Char → List Char → List String
  | [], acc => [String.mk acc.reverse]
  | x :: rest, acc =>
    if p x then String.mk acc.reverse :: splitByGo p rest []
    else splitByGo p rest (x :: acc)

/-- Splitter on a single character, keeping empty segments
(model of `str::split` with a char pattern). -/
def splitChar (c : Char) (s : String) : List String :=
  splitByGo (fun x => x == c) s.toList []

/-- Splitter on whitespace, keeping empty segments; Rust
`str::split_whitespace` is this composed with dropping empties. -/
def splitWs (s : String) : List String :=
  splitByGo Char.isWhitespace s.toList []

/-- Joins strings with a separator (model of `Vec::join`). -/
def joinWith (sep : String) : List String → String
  | [] => ""
  | [x] => x
  | x :: rest => x ++ sep ++ joinWith sep rest

/-- Shallow embedding of `serde_json::Value`.  Numbers keep only their text,
which is enough for every operation the mutators perform. -/
inductive JVal where
  | null : JVal
  | bool (b : Bool) : JVal
  | num (n : Int) : JVal
  | str (s : String) : JVal
  | arr (xs : List JVal) : JVal
  | obj (fields : List (String × JVal)) : JVal

/-- `Value::as_str`. -/
def JVal.asStr : JVal → Option String
  | .str s => some s
  | _ => none

/-- `Value::as_array`. -/
def JVal.asArr : JVal → Option (List JVal)
  | .arr xs => some xs
  | _ => none

/-- Key lookup in an association-list map (`Map::get`). -/
def mapGet {α : Type} : List (String × α) → String → Option α
  | [], _ => none
  | (k, v) :: t, key => if key = k then some v else mapGet t key

/-- Insert-or-update in an association-list map: updates the value in place
when the key exists, appends otherwise (`Map::insert` / `entry` semantics). -/
def mapSet {α : Type} : List (String × α) → String → α → List (String × α)
  | [], key, v => [(key, v)]
  | (k, w) :: t, key, v => if key = k then (k, v) :: t else (k, w) :: mapSet t key v

/-- Key removal in an association-list map (`Map::remove`; keys are unique in
any map produced by parsing, so removing every occurrence is equivalent). -/
def mapRemove {α : Type} : List (String × α) → String → List (String × α)
  | [], _ => []
  | (k, v) :: t, key => if k = key then mapRemove t key else (k, v) :: mapRemove t key

/-- `Value::get` with a string index: object lookup, `none` on any other shape. -/
def jGet (v : JVal) (k : String) : Option JVal :=
  match v with
  | .obj fields => mapGet fields k
  | _ => none

namespace Claude

def STOP_EVENT : String := "Stop"
def SUBAGENT_STOP_EVENT : String := "SubagentStop"
def PERMISSION_REQUEST_EVENT : String := "PermissionRequest"
def PERMISSION_REQUEST_MATCHER : String := "ExitPlanMode"
def SOURCE_MARKER : String := "--source claude-hook"

/-- `is_managed_command` from `claude.rs`: substring containment of the two
fixed markers. -/
def is_managed_command (command : String) : Bool :=
  strContains command "ingest --agent claude" && strContains command SOURCE_MARKER

/-- The command string of a hook object, with the default used by the source
(`hook.get("command").and_then(Value::as_str).unwrap_or_default()`). -/
def hookCmd (h : JVal) : String :=
  ((jGet h "command").bind JVal.asStr).getD ""

/-- Whether a hook object carries a managed command. -/
def hookManaged (h : JVal) : Bool :=
  is_managed_command (hookCmd h)

/-- Whether the matcher field of an entry equals the expected matcher
(`entry.get("matcher").and_then(Value::as_str).unwrap_or_default() == matcher`). -/
def matcherMatches (e : JVal) (matcher : String) : Bool :=
  ((jGet e "matcher").bind JVal.asStr).getD "" == matcher

/-- The retain pass of `ensure_managed_hook` over the nested `hooks` array of
one entry.  The boolean argument threads the `desired_exists` flag. -/
def retainHooks (cmd : String) (mm : Bool) : Bool → List JVal → List JVal × Bool
  | de, [] => ([], de)
  | de, h :: t =>
    if !hookManaged h then
      let r := retainHooks cmd mm de t
      (h :: r.1, r.2)
    else if hookCmd h == cmd && mm && !de then
      let r := retainHooks cmd mm true t
      (h :: r.1, r.2)
    else
      retainHooks cmd mm de t

/-- The per-entry loop of `ensure_managed_hook`: returns the rewritten
entries, the final `desired_exists` flag, and whether any nested array
changed length. -/
def processEntries (cmd matcher : String) : Bool → List JVal → List JVal × Bool × Bool
  | de, [] => ([], de, false)
  | de, e :: t =>
    match e with
    | .obj fields =>
      match mapGet fields "hooks" with
      | some (.arr hooks) =>
        let mm := matcherMatches (.obj fields) matcher
        let r := retainHooks cmd mm de hooks
        let ch : Bool := decide (r.1.length ≠ hooks.length)
        let rest := processEntries cmd matcher r.2 t
        (JVal.obj (mapSet fields "hooks" (.arr r.1)) :: rest.1, rest.2.1, ch || rest.2.2)
      | some _ =>
        let rest := processEntries cmd matcher de t
        (JVal.obj fields :: rest.1, rest.2.1, rest.2.2)
      | none =>
        let rest := processEntries cmd matcher de t
        (JVal.obj fields :: rest.1, rest.2.1, rest.2.2)
    | e =>
      let rest := processEntries cmd matcher de t
      (e :: rest.1, rest.2.1, rest.2.2)

/-- The prune predicate shared by `ensure_managed_hook` and
`remove_managed_hooks`: keep an entry unless its `hooks` key holds an empty
array. -/
def keepEntry (e : JVal) : Bool :=
  match (jGet e "hooks").bind JVal.asArr with
  | some hooks => !hooks.isEmpty
  | none => true

/-- The entry appended by `ensure_managed_hook` when no desired copy survived. -/
def newEntry (cmd matcher : String) : JVal :=
  .obj [("matcher", .str matcher),
        ("hooks", .arr [.obj [("type", .str "command"), ("command", .str cmd)]])]

/-- `ensure_managed_hook` from `claude.rs`: retain pass, prune pass, then
append the desired entry when necessary.  Returns the new array and the
changed flag. -/
def ensure_managed_hook (event_hooks : List JVal) (cmd matcher : String) : List JVal × Bool :=
  let p := processEntries cmd matcher false event_hooks
  let pruned := p.1.filter keepEntry
  let ch2 : Bool := decide (pruned.length ≠ p.1.length)
  if p.2.1 then (pruned, p.2.2 || ch2)
  else (pruned ++ [newEntry cmd matcher], true)

/-- `ensure_array_entry`: the array at a key after coercion (missing or
non-array values are replaced by an empty array). -/
def eventArray (hm : List (String × JVal)) (ev : String) : List JVal :=
  match mapGet hm ev with
  | some (.arr a) => a
  | _ => []

/-- `ensure_root_object`: the root fields after coercion (a non-object root
is replaced by an empty object). -/
def rootFields (doc : JVal) : List (String × JVal) :=
  match doc with
  | .obj fields => fields
  | _ => []

/-- `ensure_object_entry`: the object at a key after coercion (missing or
non-object values are replaced by an empty object). -/
def hooksFields (root : List (String × JVal)) : List (String × JVal) :=
  match mapGet root "hooks" with
  | some (.obj fields) => fields
  | _ => []

/-- The three `ensure_managed_hook` blocks of `apply_setup`, acting on the
`hooks` object: each event array is coerced, rewritten, and stored back. -/
def setupEvents (hm : List (String × JVal)) (cmd : String) : List (String × JVal) × Bool :=
  let e1 := ensure_managed_hook (eventArray hm STOP_EVENT) cmd "*"
  let hm1 := mapSet hm STOP_EVENT (.arr e1.1)
  let e2 := ensure_managed_hook (eventArray hm1 SUBAGENT_STOP_EVENT) cmd "*"
  let hm2 := mapSet hm1 SUBAGENT_STOP_EVENT (.arr e2.1)
  let e3 := ensure_managed_hook (eventArray hm2 PERMISSION_REQUEST_EVENT) cmd
    PERMISSION_REQUEST_MATCHER
  (mapSet hm2 PERMISSION_REQUEST_EVENT (.arr e3.1), e1.2 || e2.2 || e3.2)

/-- `apply_setup` from `claude.rs`: coerces the root and the `hooks` object,
then runs `ensure_managed_hook` for the three events.  Returns the final
document and the changed flag. -/
def apply_setup (doc : JVal) (cmd : String) : JVal × Bool :=
  let root := rootFields doc
  let s := setupEvents (hooksFields root) cmd
  (.obj (mapSet root "hooks" (.obj s.1)), s.2)

/-- The per-entry loop of `remove_managed_hooks`: strips every managed
command from nested `hooks` arrays. -/
def removePass : List JVal → List JVal × Bool
  | [] => ([], false)
  | e :: t =>
    let rest := removePass t
    match e with
    | .obj fields =>
      match mapGet fields "hooks" with
      | some (.arr hooks) =>
        let hooks2 := hooks.filter (fun h => !hookManaged h)
        (JVal.obj (mapSet fields "hooks" (.arr hooks2)) :: rest.1,
         decide (hooks2.length ≠ hooks.length) || rest.2)
      | some _ => (JVal.obj fields :: rest.1, rest.2)
      | none => (JVal.obj fields :: rest.1, rest.2)
    | e => (e :: rest.1, rest.2)

/-- `remove_managed_hooks` from `claude.rs`: strip pass then prune pass. -/
def remove_managed_hooks (event_hooks : List JVal) : List JVal × Bool :=
  let p := removePass event_hooks
  let pruned := p.1.filter keepEntry
  (pruned, p.2 || decide (pruned.length ≠ p.1.length))

/-- One iteration of the event loop of `apply_remove`: runs
`remove_managed_hooks` on the event array when present, and removes the
event key when its array ends up empty. -/
def removeEvent (hm : List (String × JVal)) (changed : Bool) (ev : String) :
    List (String × JVal) × Bool :=
  match mapGet hm ev with
  | some (.arr a) =>
    let r := remove_managed_hooks a
    let hm1 := mapSet hm ev (.arr r.1)
    if r.1.isEmpty then (mapRemove hm1 ev, true) else (hm1, changed || r.2)
  | _ => (hm, changed)

/-- `apply_remove` from `claude.rs`: loops over the three events and prunes
the `hooks` object when it becomes empty. -/
def apply_remove (doc : JVal) : JVal × Bool :=
  match doc with
  | .obj root =>
    match mapGet root "hooks" with
    | some (.obj hm) =>
      let r1 := removeEvent hm false STOP_EVENT
      let r2 := removeEvent r1.1 r1.2 SUBAGENT_STOP_EVENT
      let r3 := removeEvent r2.1 r2.2 PERMISSION_REQUEST_EVENT
      if r3.1.isEmpty then (JVal.obj (mapRemove root "hooks"), true)
      else (JVal.obj (mapSet root "hooks" (.obj r3.1)), r3.2)
    | _ => (doc, false)
  | _ => (doc, false)

/-- The managed command strings stored in an event array, in order (the
extraction used by the managed-hook count in the source tests). -/
def managedCommands (entries : List JVal) : List String :=
  ((entries.filterMap (fun e => (jGet e "hooks").bind JVal.asArr)).flatten.filterMap
      (fun h => (jGet h "command").bind JVal.asStr)).filter is_managed_command

/-- The managed command strings of one nested hooks array. -/
def managedOf (hooks : List JVal) : List String :=
  (hooks.filterMap (fun h => (jGet h "command").bind JVal.asStr)).filter is_managed_command

/-- The event array reachable from a whole document, empty when absent. -/
def docEventArray (doc : JVal) (ev : String) : List JVal :=
  match doc with
  | .obj root =>
    match mapGet root "hooks" with
    | some (.obj hm) => eventArray hm ev
    | _ => []
  | _ => []

/-- All hooks of the list are unmanaged. -/
def hooksClean (hooks : List JVal) : Bool :=
  hooks.all (fun h => !hookManaged h)

/-- The first managed hook of the list carries exactly the desired command
and every later hook is unmanaged. -/
def onlyDesired (cmd : String) : List JVal → Bool
  | [] => false
  | h :: t => if hookManaged h then hookCmd h == cmd && hooksClean t else onlyDesired cmd t

/-- An entry the retain pass leaves unchanged: its nested hooks array, when
present, holds no managed command. -/
def entryClean0 (e : JVal) : Bool :=
  match e with
  | .obj fields =>
    match mapGet fields "hooks" with
    | some (.arr hooks) => hooksClean hooks
    | _ => true
  | _ => true

/-- A clean entry that also survives the prune pass. -/
def entryClean (e : JVal) : Bool :=
  entryClean0 e && keepEntry e

/-- The entry retaining the single desired managed command, in a slot whose
matcher equals the expected one. -/
def entryDone (cmd matcher : String) (e : JVal) : Bool :=
  match e with
  | .obj fields =>
    match mapGet fields "hooks" with
    | some (.arr hooks) => matcherMatches (.obj fields) matcher && onlyDesired cmd hooks
    | _ => false
  | _ => false

/-- The shape of an event array after a successful setup: clean entries
around exactly one entry holding the desired command. -/
def arrDone (cmd matcher : String) (entries : List JVal) : Prop :=
  ∃ l1 e l2, entries = l1 ++ e :: l2 ∧ (∀ x ∈ l1, entryClean x = true) ∧
    entryDone cmd matcher e = true ∧ (∀ x ∈ l2, entryClean x = true)

/-- The two possible outcomes of the retain loop started with no desired
copy: either nothing was kept and every entry is clean, or exactly one
desired copy was kept. -/
def processChar (cmd matcher : String) (l : List JVal) : Prop :=
  ((processEntries cmd matcher false l).2.1 = false →
    ∀ x ∈ (processEntries cmd matcher false l).1, entryClean0 x = true) ∧
  ((processEntries cmd matcher false l).2.1 = true →
    ∃ l1 e l2, (processEntries cmd matcher false l).1 = l1 ++ e :: l2 ∧
      (∀ x ∈ l1, entryClean0 x = true) ∧ entryDone cmd matcher e = true ∧
      (∀ x ∈ l2, entryClean0 x = true))

end Claude

/-- The agent variants of `agent.rs`. -/
inductive Agent where
  | claude : Agent
  | codex : Agent
  | generic : Agent
  deriving DecidableEq

/-- `Agent::display_name`. -/
def Agent.display_name : Agent → String
  | .claude => "Claude"
  | .codex => "Codex"
  | .generic => "Agent"

/-- `NormalizedEvent` from `event.rs`.  The `cwd` path is kept as the string
it was built from (`PathBuf::from` on a UTF-8 string round-trips). -/
structure NormalizedEvent where
  agent : Agent
  event_kind : String
  cwd : Option String
  project_name : String
  raw_payload : JVal

/-- Rust `str::trim_end_matches` with the slash pattern. -/
def trimEndSlashes (s : String) : String :=
  String.mk ((s.toList.reverse.dropWhile (fun c => c == '/')).reverse)

/-- Model of `Path::file_name` on Unix paths: the last path component,
skipping empty and current-directory segments; none when the path ends in a
parent-directory component or has no component at all. -/
def pathFileName (s : String) : Option String :=
  let parts := (splitChar '/' s).filter (fun p => p ≠ "" && p ≠ ".")
  match parts.getLast? with
  | some last => if last = ".." then none else some last
  | none => none

/-- `project_name_from_cwd` from `event.rs`. -/
def project_name_from_cwd (cwd : Option String) : String :=
  match (cwd.map strTrim).filter (fun s => !strIsEmpty s) with
  | none => "unknown project"
  | some c =>
    let trimmed := trimEndSlashes c
    let candidate := if strIsEmpty trimmed then c else trimmed
    match (pathFileName candidate).filter (fun n => !strIsEmpty n) with
    | some n => n
    | none => candidate

/-- `is_exit_plan_mode_request` from `event.rs`. -/
def is_exit_plan_mode_request (object : List (String × JVal)) : Bool :=
  (mapGet object "tool_name").bind JVal.asStr == some "ExitPlanMode" ||
  (mapGet object "tool").bind JVal.asStr == some "ExitPlanMode" ||
  (mapGet object "query").bind JVal.asStr == some "ExitPlanMode"

/-- `claude_event_kind` from `event.rs`. -/
def claude_event_kind (object : List (String × JVal)) : Option String :=
  match (mapGet object "hook_event_name").bind JVal.asStr with
  | none => none
  | some hook_event =>
    if hook_event = "Stop" then some "task-end"
    else if hook_event = "SubagentStop" then some "plan-end"
    else if hook_event = "PermissionRequest" then
      if is_exit_plan_mode_request object then some "plan-end" else none
    else none

/-- `normalize_claude` from `event.rs`. -/
def normalize_claude (payload : JVal) : Option NormalizedEvent :=
  match payload with
  | .obj object =>
    match claude_event_kind object with
    | none => none
    | some event_kind =>
      let cwd_str := (mapGet object "cwd").bind JVal.asStr
      some { agent := .claude, event_kind := event_kind, cwd := cwd_str,
             project_name := project_name_from_cwd cwd_str, raw_payload := payload }
  | _ => none

/-- `codex_event_kind` from `event.rs`. -/
def codex_event_kind (kind : String) : Option String :=
  if kind = "agent-turn-complete" then some "task-end"
  else if kind = "agent-plan-complete" then some "plan-end"
  else none

/-- `normalize_codex` from `event.rs`. -/
def normalize_codex (payload : JVal) : Option NormalizedEvent :=
  match payload with
  | .obj object =>
    match (mapGet object "type").bind JVal.asStr with
    | none => none
    | some kind =>
      match codex_event_kind kind with
      | none => none
      | some event_kind =>
        let cwd_str := (mapGet object "cwd").bind JVal.asStr
        some { agent := .codex, event_kind := event_kind, cwd := cwd_str,
               project_name := project_name_from_cwd cwd_str, raw_payload := payload }
  | _ => none

/-- `is_terminal_event` from `event.rs`. -/
def is_terminal_event (event_kind : String) : Bool :=
  let lowered := strLower event_kind
  strContains lowered "complete" || strContains lowered "finish" ||
    strContains lowered "done" || strContains lowered "stop"

/-- `normalize_generic` from `event.rs`. -/
def normalize_generic (payload : JVal) : Option NormalizedEvent :=
  match payload with
  | .obj object =>
    match (((((mapGet object "event_kind").orElse
        (fun _ => mapGet object "event-kind")).orElse
        (fun _ => mapGet object "type")).orElse
        (fun _ => mapGet object "kind")).orElse
        (fun _ => mapGet object "event")).bind JVal.asStr with
    | none => none
    | some event_kind =>
      if !is_terminal_event event_kind then none
      else
        let cwd := (mapGet object "cwd").bind JVal.asStr
        let project_name :=
          match cwd with
          | some path => project_name_from_cwd (some path)
          | none => ((mapGet object "project").bind JVal.asStr).getD "unknown project"
        some { agent := .generic, event_kind := event_kind, cwd := cwd,
               project_name := project_name, raw_payload := payload }
  | _ => none

/-- `normalize` from `event.rs`. -/
def normalize (agent : Agent) (payload : JVal) : Option NormalizedEvent :=
  match agent with
  | .claude => normalize_claude payload
  | .codex => normalize_codex payload
  | .generic => normalize_generic payload

/-- The Claude discriminator test as the spec words it: the payload is an
object whose hook-event string is `Stop`, `SubagentStop`, or
`PermissionRequest` together with an ExitPlanMode tool identifier. -/
def claudeEventOk (payload : JVal) : Bool :=
  match payload with
  | .obj m =>
    match (mapGet m "hook_event_name").bind JVal.asStr with
    | some s => s == "Stop" || s == "SubagentStop" ||
        (s == "PermissionRequest" && is_exit_plan_mode_request m)
    | none => false
  | _ => false

/-- The Codex discriminator test as the spec words it: the payload is an
object whose `type` string has an entry in the fixed table. -/
def codexEventOk (payload : JVal) : Bool :=
  match payload with
  | .obj m =>
    match (mapGet m "type").bind JVal.asStr with
    | some s => s == "agent-turn-complete" || s == "agent-plan-complete"
    | none => false
  | _ => false

/-- `AgentTemplateConfig` from `state.rs`. -/
structure AgentTemplateConfig where
  claude : Option String := none
  codex : Option String := none
  generic : Option String := none

/-- `TemplateConfig` from `state.rs`. -/
structure TemplateConfig where
  global : Option String := none
  agents : AgentTemplateConfig := {}

/-- `AgentEventKindLabelsConfig` from `state.rs`; the sorted label maps are
embedded as association lists. -/
structure AgentEventKindLabelsConfig where
  claude : List (String × String) := []
  codex : List (String × String) := []
  generic : List (String × String) := []

/-- `EventKindLabelsConfig` from `state.rs`. -/
structure EventKindLabelsConfig where
  global : List (String × String) := []
  agents : AgentEventKindLabelsConfig := {}

/-- `CodexState` from `state.rs`. -/
structure CodexState where
  previous_notify : Option (List String) := none

/-- `LocalState` from `state.rs`. -/
structure LocalState where
  codex : CodexState := {}
  templates : TemplateConfig := {}
  event_kind_labels : EventKindLabelsConfig := {}

/-- The default template string of `template.rs` (braces written as escapes). -/
def BUILTIN_DEFAULT_TEMPLATE : String :=
  "\x7b\x7bagent\x7d\x7d finished a \x7b\x7bevent_kind\x7d\x7d in the \x7b\x7bproject\x7d\x7d project"

/-- `AnnouncementContext` from `template.rs`. -/
structure AnnouncementContext where
  agent : String
  event_kind : String
  event_kind_raw : String
  project : String
  cwd : String

/-- Abstract interface of the external handlebars renderer used by
`template.rs`: whether a template string registers without a syntax error,
and the rendering outcome of a template against a context, where `none`
models a render error. -/
structure TemplateEngine where
  registerOk : String → Bool
  renderTpl : String → AnnouncementContext → Option String

/-- `agent_template` from `template.rs`. -/
def agent_template (templates : TemplateConfig) (agent : Agent) : Option String :=
  match agent with
  | .claude => templates.agents.claude
  | .codex => templates.agents.codex
  | .generic => templates.agents.generic

/-- `normalize_template` from `template.rs`. -/
def normalize_template (value : Option String) : Option String :=
  value.filter (fun candidate => !strIsEmpty (strTrim candidate))

/-- `normalize_event_kind_key` from `template.rs`. -/
def normalize_event_kind_key (event_kind : String) : String :=
  strLower (strTrim event_kind)

/-- `humanize_event_kind` from `template.rs`. -/
def humanize_event_kind (event_kind : String) : String :=
  let replaced := String.mk (event_kind.toList.map
    (fun c => if c == '-' || c == '_' then ' ' else c))
  let collapsed := joinWith " " ((splitWs replaced).filter (fun w => !strIsEmpty w))
  if strIsEmpty collapsed then "event" else collapsed

/-- `agent_event_kind_labels` from `template.rs`. -/
def agent_event_kind_labels (labels : EventKindLabelsConfig) (agent : Agent) :
    List (String × String) :=
  match agent with
  | .claude => labels.agents.claude
  | .codex => labels.agents.codex
  | .generic => labels.agents.generic

/-- `resolve_event_kind_label` from `template.rs`. -/
def resolve_event_kind_label (event : NormalizedEvent) (labels : EventKindLabelsConfig) : String :=
  let key := normalize_event_kind_key event.event_kind
  let resolved :=
    (((((mapGet (agent_event_kind_labels labels event.agent) key).orElse
        (fun _ => mapGet labels.global key)).orElse
        (fun _ => if key = "task-end" then some "task" else none)).map
        strTrim).filter (fun label => !strIsEmpty label))
  match resolved with
  | some label => label
  | none => humanize_event_kind event.event_kind

/-- `context_from_event` from `template.rs`. -/
def context_from_event (event : NormalizedEvent) (event_kind_label : String) :
    AnnouncementContext :=
  { agent := event.agent.display_name
    event_kind := event_kind_label
    event_kind_raw := event.event_kind
    project := event.project_name
    cwd := event.cwd.getD "" }

/-- `render_template` from `template.rs`: none on registration failure, on a
render error, and on empty or whitespace-only output. -/
def render_template (engine : TemplateEngine) (template : String) (event : NormalizedEvent)
    (event_kind_label : String) : Option String :=
  if !engine.registerOk template then none
  else (engine.renderTpl template (context_from_event event event_kind_label)).filter
      (fun rendered => !strIsEmpty (strTrim rendered))

/-- `resolve_template` from `template.rs`. -/
def resolve_template (templates : TemplateConfig) (agent : Agent) : Option String :=
  (normalize_template (agent_template templates agent)).orElse
    (fun _ => normalize_template templates.global)

/-- The built-in default message computed inside
`render_announcement_message` (its `default_message` local). -/
def default_message (engine : TemplateEngine) (event : NormalizedEvent)
    (event_kind_label : String) : String :=
  (render_template engine BUILTIN_DEFAULT_TEMPLATE event event_kind_label).getD
    (event.agent.display_name ++ " finished a " ++ event_kind_label ++ " in the " ++
      event.project_name ++ " project")

/-- `render_announcement_message` from `template.rs`. -/
def render_announcement_message (engine : TemplateEngine) (event : NormalizedEvent)
    (templates : TemplateConfig) (event_kind_labels : EventKindLabelsConfig) : String :=
  let event_kind_label := resolve_event_kind_label event event_kind_labels
  let dm := default_message engine event event_kind_label
  match resolve_template templates event.agent with
  | some template => (render_template engine template event event_kind_label).getD dm
  | none => dm

/-- The label resolution exactly as the spec sentence orders it: the first
present label among agent-specific, global and the task-end alias wins
verbatim, with the humanized event kind as the final fallback. -/
def resolve_label_spec (event : NormalizedEvent) (labels : EventKindLabelsConfig) : String :=
  let key := normalize_event_kind_key event.event_kind
  match mapGet (agent_event_kind_labels labels event.agent) key with
  | some label => label
  | none =>
    match mapGet labels.global key with
    | some label => label
    | none => if key = "task-end" then "task" else humanize_event_kind event.event_kind

/-- The amended label resolution: the first present label among
agent-specific, global and the task-end alias is trimmed and used when
non-empty after trimming; when it trims to the empty string, or when no
label is present, the humanized event kind is used. -/
def resolve_label_amended (event : NormalizedEvent) (labels : EventKindLabelsConfig) : String :=
  let key := normalize_event_kind_key event.event_kind
  let first :=
    (((mapGet (agent_event_kind_labels labels event.agent) key).orElse
        (fun _ => mapGet labels.global key)).orElse
        (fun _ => if key = "task-end" then some "task" else none))
  match first with
  | some label =>
    if strIsEmpty (strTrim label) then humanize_event_kind event.event_kind
    else strTrim label
  | none => humanize_event_kind event.event_kind

namespace Codex

def SOURCE_VALUE : String := "codex-notify"

/-- Shallow embedding of a toml_edit item: only string recognition matters
to the notify mutator, every other shape is opaque. -/
inductive TValue where
  | str (s : String) : TValue
  | arr (xs : List TValue) : TValue
  | other : TValue

/-- `Value::as_str` of toml_edit. -/
def TValue.asStr : TValue → Option String
  | .str s => some s
  | _ => none

/-- `Item::as_array` of toml_edit. -/
def TValue.asArr : TValue → Option (List TValue)
  | .arr xs => some xs
  | _ => none

/-- The TOML document, reduced to its top-level key table. -/
abbrev TDoc : Type := List (String × TValue)

/-- `managed_notify_command` from `codex.rs`. -/
def managed_notify_command (executable_path : String) : List String :=
  [executable_path, "ingest", "--agent", "codex", "--source", SOURCE_VALUE]

/-- Rust `collect::<Option<Vec<String>>>` over `as_str` of each item. -/
def strItems : List TValue → Option (List String)
  | [] => some []
  | v :: t =>
    match v.asStr with
    | some s => (strItems t).map (fun rest => s :: rest)
    | none => none

/-- `extract_notify` from `codex.rs`: the notify key as a string list, none
when absent, not an array, or holding a non-string item. -/
def extract_notify (doc : TDoc) : Option (List String) :=
  ((mapGet doc "notify").bind TValue.asArr).bind strItems

/-- `set_notify` from `codex.rs`. -/
def set_notify (doc : TDoc) (command : List String) : TDoc :=
  mapSet doc "notify" (.arr (command.map TValue.str))

/-- `remove_notify` from `codex.rs`. -/
def remove_notify (doc : TDoc) : TDoc :=
  mapRemove doc "notify"

/-- `is_managed_notify` from `codex.rs`: the five tokens each occur as a
whole element, order-independent. -/
def is_managed_notify (notify : List String) : Bool :=
  notify.contains "ingest" && notify.contains "--agent" && notify.contains "codex" &&
    notify.contains "--source" && notify.contains SOURCE_VALUE

/-- `apply_setup` from `codex.rs`. -/
def apply_setup (doc : TDoc) (state : LocalState) (desired : List String) :
    TDoc × LocalState × Bool :=
  match extract_notify doc with
  | some notify =>
    if notify = desired then (doc, state, false)
    else if is_managed_notify notify then (set_notify doc desired, state, true)
    else
      let state2 :=
        if state.codex.previous_notify.isNone then
          { state with codex := { previous_notify := some notify } }
        else state
      (set_notify doc desired, state2, true)
  | none => (set_notify doc desired, state, true)

/-- `apply_remove` from `codex.rs`. -/
def apply_remove (doc : TDoc) (state : LocalState) : TDoc × LocalState × Bool :=
  match extract_notify doc with
  | none => (doc, state, false)
  | some existing =>
    if !is_managed_notify existing then (doc, state, false)
    else
      match state.codex.previous_notify with
      | some previous =>
        (set_notify doc previous, { state with codex := { previous_notify := none } }, true)
      | none => (remove_notify doc, { state with codex := { previous_notify := none } }, true)

end Codex

/-! ### Theorems -/

@[simp] theorem mapGet_nil {α : Type} (key : String) : mapGet ([] : List (String × α)) key = none := rfl

@[simp] theorem mapGet_cons {α : Type} (k : String) (v : α) (t : List (String × α)) (key : String) :
    mapGet ((k, v) :: t) key = if key = k then some v else mapGet t key := rfl

@[simp] theorem mapSet_nil {α : Type} (key : String) (v : α) :
    mapSet ([] : List (String × α)) key v = [(key, v)] := rfl

@[simp] theorem mapSet_cons {α : Type} (k : String) (w : α) (t : List (String × α)) (key : String) (v : α) :
    mapSet ((k, w) :: t) key v = if key = k then (k, v) :: t else (k, w) :: mapSet t key v := rfl

theorem mapGet_mapSet {α : Type} (m : List (String × α)) (key : String) (v : α) :
    mapGet (mapSet m key v) key = some v := by
  induction m with
  | nil => simp [mapGet, mapSet]
  | cons hd t ih =>
    obtain ⟨k, w⟩ := hd
    by_cases h : key = k <;> simp [mapGet, mapSet, h, ih]

theorem mapGet_mapSet_ne {α : Type} (m : List (String × α)) (key k2 : String) (v : α)
    (h : k2 ≠ key) : mapGet (mapSet m key v) k2 = mapGet m k2 := by
  induction m with
  | nil => simp [mapGet, mapSet, h]
  | cons hd t ih =>
    obtain ⟨k, w⟩ := hd
    by_cases hk : key = k
    · subst hk
      simp [mapGet, mapSet, h]
    · by_cases hk2 : k2 = k <;> simp [mapGet, mapSet, hk, hk2, ih]

theorem mapSet_self {α : Type} (m : List (String × α)) (key : String) (v : α)
    (h : mapGet m key = some v) : mapSet m key v = m := by
  induction m with
  | nil => simp [mapGet] at h
  | cons hd t ih =>
    obtain ⟨k, w⟩ := hd
    by_cases hk : key = k
    · subst hk
      simp [mapGet] at h
      simp [mapSet, h]
    · simp [mapGet, hk] at h
      simp [mapSet, hk, ih h]

theorem mapGet_mapRemove_self {α : Type} (m : List (String × α)) (key : String) :
    mapGet (mapRemove m key) key = none := by
  induction m with
  | nil => simp [mapRemove, mapGet]
  | cons hd t ih =>
    obtain ⟨k, w⟩ := hd
    by_cases hk : k = key
    · simp [mapRemove, mapGet, hk, ih]
    · have hne : key ≠ k := fun h => hk h.symm
      simp [mapRemove, mapGet, hk, hne, ih]

theorem mapGet_mapRemove_ne {α : Type} (m : List (String × α)) (key k2 : String)
    (h : k2 ≠ key) : mapGet (mapRemove m key) k2 = mapGet m k2 := by
  induction m with
  | nil => simp [mapRemove, mapGet]
  | cons hd t ih =>
    obtain ⟨k, w⟩ := hd
    by_cases hk : k = key
    · subst hk
      simp [mapRemove, mapGet, h, ih]
    · by_cases hk2 : k2 = k <;> simp [mapRemove, mapGet, hk, hk2, ih]

theorem mapGet_some_ne_nil {α : Type} {m : List (String × α)} {key : String} {v : α}
    (h : mapGet m key = some v) : m ≠ [] := by
  intro hnil
  subst hnil
  simp [mapGet] at h

theorem mapGet_some_isEmpty {α : Type} {m : List (String × α)} {key : String} {v : α}
    (h : mapGet m key = some v) : m.isEmpty = false := by
  cases m with
  | nil => simp [mapGet] at h
  | cons hd t => rfl

namespace Claude

theorem hooksClean_iff (hooks : List JVal) :
    hooksClean hooks = true ↔ ∀ h ∈ hooks, hookManaged h = false := by
  simp [hooksClean, List.all_eq_true]

theorem retainClean_fix (cmd : String) (mm : Bool) (de : Bool) (hooks : List JVal)
    (h : hooksClean hooks = true) : retainHooks cmd mm de hooks = (hooks, de) := by
  induction hooks with
  | nil => rfl
  | cons hd t ih =>
    rw [hooksClean] at h
    simp only [List.all_cons, Bool.and_eq_true] at h
    rw [retainHooks, if_pos (by simp [h.1])]
    rw [ih (by rw [hooksClean]; exact h.2)]

theorem retain_snd_true (cmd : String) (mm : Bool) (hooks : List JVal) :
    (retainHooks cmd mm true hooks).2 = true := by
  induction hooks with
  | nil => rfl
  | cons hd t ih =>
    rw [retainHooks]
    by_cases hh : hookManaged hd
    · simp only [hh, Bool.not_true, Bool.false_eq_true, if_false]
      simp only [Bool.not_true, Bool.and_false, Bool.false_eq_true, if_false]
      exact ih
    · simp only [hh, Bool.not_false, if_true]
      exact ih

theorem retain_true_clean (cmd : String) (mm : Bool) (hooks : List JVal) :
    hooksClean (retainHooks cmd mm true hooks).1 = true := by
  induction hooks with
  | nil => rfl
  | cons hd t ih =>
    rw [retainHooks]
    by_cases hh : hookManaged hd
    · simp only [hh, Bool.not_true, Bool.false_eq_true, if_false, Bool.and_false]
      exact ih
    · simp only [hh, Bool.not_false, if_true]
      simp only [hooksClean, List.all_cons, hh, Bool.not_false, Bool.true_and]
      exact ih

theorem retain_false_char (cmd : String) (mm : Bool) (hooks : List JVal) :
    ((retainHooks cmd mm false hooks).2 = false →
      hooksClean (retainHooks cmd mm false hooks).1 = true) ∧
    ((retainHooks cmd mm false hooks).2 = true →
      mm = true ∧ onlyDesired cmd (retainHooks cmd mm false hooks).1 = true) := by
  induction hooks with
  | nil => exact ⟨fun _ => rfl, fun hc => by simp [retainHooks] at hc⟩
  | cons hd t ih =>
    rw [retainHooks]
    by_cases hh : hookManaged hd
    · simp only [hh, Bool.not_true, Bool.false_eq_true, if_false]
      by_cases hc : (hookCmd hd == cmd && mm && !false) = true
      · -- kept as the desired copy
        have hcc : hookCmd hd == cmd := by
          have := hc
          simp only [Bool.not_false, Bool.and_true] at this
          exact (Bool.and_eq_true_iff.mp this).1
        have hmm : mm = true := by
          have := hc
          simp only [Bool.not_false, Bool.and_true] at this
          exact (Bool.and_eq_true_iff.mp this).2
        rw [if_pos hc]
        constructor
        · intro hfalse
          rw [retain_snd_true] at hfalse
          exact absurd hfalse (by simp)
        · intro _
          refine ⟨hmm, ?_⟩
          rw [onlyDesired]
          rw [if_pos hh]
          simp only [hcc, Bool.true_and]
          exact retain_true_clean cmd mm t
      · rw [if_neg hc]
        exact ih
    · simp only [hh, Bool.not_false, if_true]
      constructor
      · intro hfalse
        have := ih.1 hfalse
        simp only [hooksClean, List.all_cons, hh, Bool.not_false, Bool.true_and]
        exact this
      · intro htrue
        obtain ⟨hmm, hod⟩ := ih.2 htrue
        refine ⟨hmm, ?_⟩
        rw [onlyDesired, if_neg (by simp [hh])]
        exact hod

theorem onlyDesired_ne_nil {cmd : String} {hooks : List JVal}
    (h : onlyDesired cmd hooks = true) : hooks.isEmpty = false := by
  cases hooks with
  | nil => simp [onlyDesired] at h
  | cons hd t => rfl

theorem retainDone_fix (cmd : String) (hooks : List JVal)
    (h : onlyDesired cmd hooks = true) : retainHooks cmd true false hooks = (hooks, true) := by
  induction hooks with
  | nil => simp [onlyDesired] at h
  | cons hd t ih =>
    rw [onlyDesired] at h
    by_cases hh : hookManaged hd
    · rw [if_pos hh] at h
      obtain ⟨hcc, hcl⟩ := Bool.and_eq_true_iff.mp h
      rw [retainHooks, if_neg (by simp [hh]), if_pos (by simp [hcc])]
      rw [retainClean_fix cmd true true t hcl]
    · rw [if_neg hh] at h
      rw [retainHooks, if_pos (by simp [hh]), ih h]

theorem matcherMatches_mapSet_hooks (fields : List (String × JVal)) (v : JVal)
    (matcher : String) :
    matcherMatches (JVal.obj (mapSet fields "hooks" v)) matcher =
      matcherMatches (JVal.obj fields) matcher := by
  simp only [matcherMatches, jGet]
  rw [mapGet_mapSet_ne fields "hooks" "matcher" v (by decide)]

/-- Unchanged entries pass through one step of the loop. -/
theorem process_clean_fix (cmd matcher : String) (l : List JVal) (de : Bool)
    (h : ∀ x ∈ l, entryClean x = true) :
    processEntries cmd matcher de l = (l, de, false) := by
  induction l generalizing de with
  | nil => rfl
  | cons e t ih =>
    have he := h e (List.mem_cons_self e t)
    have ht : ∀ x ∈ t, entryClean x = true := fun x hx => h x (List.mem_cons_of_mem e hx)
    cases e with
    | obj fields =>
      cases hget : mapGet fields "hooks" with
      | some v =>
        cases v with
        | arr hooks =>
          have hclean : hooksClean hooks = true := by
            have h0 := he
            simp only [entryClean, entryClean0, hget, Bool.and_eq_true] at h0
            exact h0.1
          simp only [processEntries, hget]
          rw [retainClean_fix cmd _ de hooks hclean]
          rw [ih de ht]
          rw [mapSet_self fields "hooks" (JVal.arr hooks) hget]
          simp
        | null => simp only [processEntries, hget]; rw [ih de ht]
        | bool b => simp only [processEntries, hget]; rw [ih de ht]
        | num n => simp only [processEntries, hget]; rw [ih de ht]
        | str s => simp only [processEntries, hget]; rw [ih de ht]
        | obj f2 => simp only [processEntries, hget]; rw [ih de ht]
      | none => simp only [processEntries, hget]; rw [ih de ht]
    | null => simp only [processEntries]; rw [ih de ht]
    | bool b => simp only [processEntries]; rw [ih de ht]
    | num n => simp only [processEntries]; rw [ih de ht]
    | str s => simp only [processEntries]; rw [ih de ht]
    | arr xs => simp only [processEntries]; rw [ih de ht]

theorem process_append (cmd matcher : String) (l1 l2 : List JVal) (de : Bool) :
    processEntries cmd matcher de (l1 ++ l2) =
      ((processEntries cmd matcher de l1).1 ++
        (processEntries cmd matcher (processEntries cmd matcher de l1).2.1 l2).1,
       (processEntries cmd matcher (processEntries cmd matcher de l1).2.1 l2).2.1,
       (processEntries cmd matcher de l1).2.2 ||
        (processEntries cmd matcher (processEntries cmd matcher de l1).2.1 l2).2.2) := by
  induction l1 generalizing de with
  | nil => simp [processEntries]
  | cons e t ih =>
    cases e with
    | obj fields =>
      cases hget : mapGet fields "hooks" with
      | some v =>
        cases v with
        | arr hooks =>
          simp only [List.cons_append, processEntries, hget, List.append_eq, ih]
          simp [Bool.or_assoc]
        | null => simp only [List.cons_append, processEntries, hget, List.append_eq, ih]
        | bool b => simp only [List.cons_append, processEntries, hget, List.append_eq, ih]
        | num n => simp only [List.cons_append, processEntries, hget, List.append_eq, ih]
        | str s => simp only [List.cons_append, processEntries, hget, List.append_eq, ih]
        | obj f2 => simp only [List.cons_append, processEntries, hget, List.append_eq, ih]
      | none => simp only [List.cons_append, processEntries, hget, List.append_eq, ih]
    | null => simp only [List.cons_append, processEntries, List.append_eq, ih]
    | bool b => simp only [List.cons_append, processEntries, List.append_eq, ih]
    | num n => simp only [List.cons_append, processEntries, List.append_eq, ih]
    | str s => simp only [List.cons_append, processEntries, List.append_eq, ih]
    | arr xs => simp only [List.cons_append, processEntries, List.append_eq, ih]

theorem process_true_char (cmd matcher : String) (l : List JVal) :
    (processEntries cmd matcher true l).2.1 = true ∧
    ∀ x ∈ (processEntries cmd matcher true l).1, entryClean0 x = true := by
  induction l with
  | nil => exact ⟨rfl, by simp [processEntries]⟩
  | cons e t ih =>
    cases e with
    | obj fields =>
      cases hget : mapGet fields "hooks" with
      | some v =>
        cases v with
        | arr hooks =>
          simp only [processEntries, hget]
          rw [retain_snd_true]
          refine ⟨ih.1, ?_⟩
          intro x hx
          simp only [List.mem_cons] at hx
          rcases hx with rfl | hx
          · simp only [entryClean0, mapGet_mapSet]
            exact retain_true_clean cmd _ hooks
          · exact ih.2 x hx
        | null =>
          simp only [processEntries, hget]
          refine ⟨ih.1, ?_⟩
          intro x hx
          simp only [List.mem_cons] at hx
          rcases hx with rfl | hx
          · simp [entryClean0, hget]
          · exact ih.2 x hx
        | bool b =>
          simp only [processEntries, hget]
          refine ⟨ih.1, ?_⟩
          intro x hx
          simp only [List.mem_cons] at hx
          rcases hx with rfl | hx
          · simp [entryClean0, hget]
          · exact ih.2 x hx
        | num n =>
          simp only [processEntries, hget]
          refine ⟨ih.1, ?_⟩
          intro x hx
          simp only [List.mem_cons] at hx
          rcases hx with rfl | hx
          · simp [entryClean0, hget]
          · exact ih.2 x hx
        | str s =>
          simp only [processEntries, hget]
          refine ⟨ih.1, ?_⟩
          intro x hx
          simp only [List.mem_cons] at hx
          rcases hx with rfl | hx
          · simp [entryClean0, hget]
          · exact ih.2 x hx
        | obj f2 =>
          simp only [processEntries, hget]
          refine ⟨ih.1, ?_⟩
          intro x hx
          simp only [List.mem_cons] at hx
          rcases hx with rfl | hx
          · simp [entryClean0, hget]
          · exact ih.2 x hx
      | none =>
        simp only [processEntries, hget]
        refine ⟨ih.1, ?_⟩
        intro x hx
        simp only [List.mem_cons] at hx
        rcases hx with rfl | hx
        · simp [entryClean0, hget]
        · exact ih.2 x hx
    | null =>
      simp only [processEntries]
      refine ⟨ih.1, ?_⟩
      intro x hx
      simp only [List.mem_cons] at hx
      rcases hx with rfl | hx
      · rfl
      · exact ih.2 x hx
    | bool b =>
      simp only [processEntries]
      refine ⟨ih.1, ?_⟩
      intro x hx
      simp only [List.mem_cons] at hx
      rcases hx with rfl | hx
      · rfl
      · exact ih.2 x hx
    | num n =>
      simp only [processEntries]
      refine ⟨ih.1, ?_⟩
      intro x hx
      simp only [List.mem_cons] at hx
      rcases hx with rfl | hx
      · rfl
      · exact ih.2 x hx
    | str s =>
      simp only [processEntries]
      refine ⟨ih.1, ?_⟩
      intro x hx
      simp only [List.mem_cons] at hx
      rcases hx with rfl | hx
      · rfl
      · exact ih.2 x hx
    | arr xs =>
      simp only [processEntries]
      refine ⟨ih.1, ?_⟩
      intro x hx
      simp only [List.mem_cons] at hx
      rcases hx with rfl | hx
      · rfl
      · exact ih.2 x hx

theorem process_false_pass (cmd matcher : String) (x0 : JVal) (l t : List JVal)
    (hclean : entryClean0 x0 = true)
    (h1 : (processEntries cmd matcher false l).1 =
      x0 :: (processEntries cmd matcher false t).1)
    (h2 : (processEntries cmd matcher false l).2.1 =
      (processEntries cmd matcher false t).2.1)
    (iht : processChar cmd matcher t) : processChar cmd matcher l := by
  constructor
  · intro hsnd x hx
    rw [h2] at hsnd
    rw [h1] at hx
    rcases List.mem_cons.mp hx with rfl | hx
    · exact hclean
    · exact iht.1 hsnd x hx
  · intro hsnd
    rw [h2] at hsnd
    obtain ⟨l1, e0, l2, heq, hc1, hd, hc2⟩ := iht.2 hsnd
    refine ⟨x0 :: l1, e0, l2, ?_, ?_, hd, hc2⟩
    · rw [h1, heq, List.cons_append]
    · intro x hx
      rcases List.mem_cons.mp hx with rfl | hx
      · exact hclean
      · exact hc1 x hx

theorem process_false_char (cmd matcher : String) (l : List JVal) :
    processChar cmd matcher l := by
  induction l with
  | nil =>
    exact ⟨fun _ => by simp [processEntries], fun hc => by simp [processEntries] at hc⟩
  | cons e t ih =>
    cases e with
    | obj fields =>
      cases hget : mapGet fields "hooks" with
      | some v =>
        cases v with
        | arr hooks =>
          cases hr2 : (retainHooks cmd (matcherMatches (JVal.obj fields) matcher)
              false hooks).2 with
          | false =>
            refine process_false_pass cmd matcher
              (JVal.obj (mapSet fields "hooks" (.arr (retainHooks cmd
                (matcherMatches (JVal.obj fields) matcher) false hooks).1))) _ t ?_ ?_ ?_ ih
            · simp only [entryClean0, mapGet_mapSet]
              exact (retain_false_char cmd _ hooks).1 hr2
            · simp only [processEntries, hget]
              rw [hr2]
            · simp only [processEntries, hget]
              rw [hr2]
          | true =>
            have hchar := (retain_false_char cmd
              (matcherMatches (JVal.obj fields) matcher) hooks).2 hr2
            constructor
            · intro hsnd
              simp only [processEntries, hget] at hsnd
              rw [hr2, (process_true_char cmd matcher t).1] at hsnd
              exact absurd hsnd (by simp)
            · intro _
              refine ⟨[], JVal.obj (mapSet fields "hooks" (.arr (retainHooks cmd
                  (matcherMatches (JVal.obj fields) matcher) false hooks).1)),
                (processEntries cmd matcher true t).1, ?_, by simp, ?_,
                (process_true_char cmd matcher t).2⟩
              · simp only [processEntries, hget]
                rw [hr2]
                rfl
              · simp only [entryDone, mapGet_mapSet]
                rw [matcherMatches_mapSet_hooks, hchar.2, hchar.1]
                rfl
        | null =>
          exact process_false_pass cmd matcher (JVal.obj fields) _ t
            (by simp [entryClean0, hget])
            (by simp only [processEntries, hget])
            (by simp only [processEntries, hget]) ih
        | bool b =>
          exact process_false_pass cmd matcher (JVal.obj fields) _ t
            (by simp [entryClean0, hget])
            (by simp only [processEntries, hget])
            (by simp only [processEntries, hget]) ih
        | num n =>
          exact process_false_pass cmd matcher (JVal.obj fields) _ t
            (by simp [entryClean0, hget])
            (by simp only [processEntries, hget])
            (by simp only [processEntries, hget]) ih
        | str s =>
          exact process_false_pass cmd matcher (JVal.obj fields) _ t
            (by simp [entryClean0, hget])
            (by simp only [processEntries, hget])
            (by simp only [processEntries, hget]) ih
        | obj f2 =>
          exact process_false_pass cmd matcher (JVal.obj fields) _ t
            (by simp [entryClean0, hget])
            (by simp only [processEntries, hget])
            (by simp only [processEntries, hget]) ih
      | none =>
        exact process_false_pass cmd matcher (JVal.obj fields) _ t
          (by simp [entryClean0, hget])
          (by simp only [processEntries, hget])
          (by simp only [processEntries, hget]) ih
    | null =>
      exact process_false_pass cmd matcher JVal.null _ t rfl
        (by simp only [processEntries]) (by simp only [processEntries]) ih
    | bool b =>
      exact process_false_pass cmd matcher (JVal.bool b) _ t rfl
        (by simp only [processEntries]) (by simp only [processEntries]) ih
    | num n =>
      exact process_false_pass cmd matcher (JVal.num n) _ t rfl
        (by simp only [processEntries]) (by simp only [processEntries]) ih
    | str s =>
      exact process_false_pass cmd matcher (JVal.str s) _ t rfl
        (by simp only [processEntries]) (by simp only [processEntries]) ih
    | arr xs =>
      exact process_false_pass cmd matcher (JVal.arr xs) _ t rfl
        (by simp only [processEntries]) (by simp only [processEntries]) ih

theorem removeEvent_snd_true (hm : List (String × JVal)) (ev : String) :
    (removeEvent hm true ev).2 = true := by
  unfold removeEvent
  cases h : mapGet hm ev with
  | none => rfl
  | some v =>
    cases v <;> simp
    case arr a =>
      cases he : (remove_managed_hooks a).1.isEmpty <;> simp [he]

theorem removeEvent_get_ne (hm : List (String × JVal)) (c : Bool) (ev k : String)
    (h : k ≠ ev) : mapGet (removeEvent hm c ev).1 k = mapGet hm k := by
  unfold removeEvent
  cases hv : mapGet hm ev with
  | none => rfl
  | some v =>
    cases v <;> simp
    case arr a =>
      cases he : (remove_managed_hooks a).1.isEmpty <;>
        simp [he, mapGet_mapRemove_ne _ _ _ h, mapGet_mapSet_ne _ _ _ _ h]

theorem apply_remove_eq (root hm : List (String × JVal))
    (hhooks : mapGet root "hooks" = some (.obj hm)) :
    apply_remove (.obj root) =
      (let r1 := removeEvent hm false STOP_EVENT
       let r2 := removeEvent r1.1 r1.2 SUBAGENT_STOP_EVENT
       let r3 := removeEvent r2.1 r2.2 PERMISSION_REQUEST_EVENT
       if r3.1.isEmpty then (JVal.obj (mapRemove root "hooks"), true)
       else (JVal.obj (mapSet root "hooks" (.obj r3.1)), r3.2)) := by
  unfold apply_remove
  simp only [hhooks]

/-- C9: on a document whose hooks object maps the Stop event to an empty
array, apply_remove reports changed true, the result has no Stop key under
hooks, and when the empty Stop array was the only hooks entry the hooks
object itself is pruned from the document. -/
theorem apply_remove_prunes_empty_event (root hm : List (String × JVal))
    (hhooks : mapGet root "hooks" = some (.obj hm))
    (hstop : mapGet hm "Stop" = some (.arr [])) :
    (apply_remove (.obj root)).2 = true ∧
    ((jGet (apply_remove (.obj root)).1 "hooks").bind (fun v => jGet v "Stop") = none) ∧
    (hm = [("Stop", JVal.arr [])] → jGet (apply_remove (.obj root)).1 "hooks" = none) := by
  have hr1 : removeEvent hm false STOP_EVENT =
      (mapRemove (mapSet hm STOP_EVENT (.arr [])) STOP_EVENT, true) := by
    unfold removeEvent
    rw [show mapGet hm STOP_EVENT = some (.arr []) from hstop]
    rfl
  rw [apply_remove_eq root hm hhooks]
  simp only [hr1]
  have h22 : (removeEvent (mapRemove (mapSet hm STOP_EVENT (.arr [])) STOP_EVENT) true
      SUBAGENT_STOP_EVENT).2 = true := removeEvent_snd_true _ _
  rw [h22]
  have hsnd : (removeEvent (removeEvent (mapRemove (mapSet hm STOP_EVENT (.arr []))
      STOP_EVENT) true SUBAGENT_STOP_EVENT).1 true PERMISSION_REQUEST_EVENT).2 = true :=
    removeEvent_snd_true _ _
  have hstop3 : mapGet (removeEvent (removeEvent (mapRemove (mapSet hm STOP_EVENT (.arr []))
      STOP_EVENT) true SUBAGENT_STOP_EVENT).1 true PERMISSION_REQUEST_EVENT).1 "Stop" = none := by
    rw [removeEvent_get_ne _ _ _ _ (by decide : "Stop" ≠ PERMISSION_REQUEST_EVENT),
      removeEvent_get_ne _ _ _ _ (by decide : "Stop" ≠ SUBAGENT_STOP_EVENT)]
    exact mapGet_mapRemove_self _ _
  refine ⟨?_, ?_, ?_⟩
  · split
    · rfl
    · exact hsnd
  · split
    · simp [jGet, mapGet_mapRemove_self]
    · simp [jGet, mapGet_mapSet, hstop3]
  · intro hhm
    subst hhm
    simp only [show (removeEvent (removeEvent (mapRemove (mapSet [("Stop", JVal.arr [])]
        STOP_EVENT (.arr [])) STOP_EVENT) true SUBAGENT_STOP_EVENT).1 true
        PERMISSION_REQUEST_EVENT).1 = [] from rfl]
    simp [jGet, mapGet_mapRemove_self]

/-- C3: on a document whose Stop array holds one entry containing a foreign
command and a managed command, apply_remove keeps the foreign command inside
its entry, leaves every root key other than hooks untouched, and leaves
every hooks key other than the three managed events untouched. -/
theorem apply_remove_preserves_foreign (root hm fields : List (String × JVal))
    (fh mh : JVal) (fc mc : String)
    (hhooks : mapGet root "hooks" = some (.obj hm))
    (hstop : mapGet hm "Stop" = some (.arr [.obj fields]))
    (hfields : mapGet fields "hooks" = some (.arr [fh, mh]))
    (hfc : (jGet fh "command").bind JVal.asStr = some fc)
    (hmc : (jGet mh "command").bind JVal.asStr = some mc)
    (hforeign : is_managed_command fc = false)
    (hmanaged : is_managed_command mc = true) :
    ((jGet (apply_remove (.obj root)).1 "hooks").bind (fun v => jGet v "Stop")) =
      some (.arr [.obj (mapSet fields "hooks" (.arr [fh]))]) ∧
    (∀ k, k ≠ "hooks" → jGet (apply_remove (.obj root)).1 k = jGet (.obj root) k) ∧
    (∀ k, k ≠ "Stop" → k ≠ "SubagentStop" → k ≠ "PermissionRequest" →
      ((jGet (apply_remove (.obj root)).1 "hooks").bind (fun v => jGet v k)) = mapGet hm k) := by
  have hfhm : hookManaged fh = false := by
    unfold hookManaged hookCmd
    rw [show (jGet fh "command").bind JVal.asStr = some fc from hfc]
    exact hforeign
  have hmhm : hookManaged mh = true := by
    unfold hookManaged hookCmd
    rw [show (jGet mh "command").bind JVal.asStr = some mc from hmc]
    exact hmanaged
  have hrmh : remove_managed_hooks [.obj fields] =
      ([.obj (mapSet fields "hooks" (.arr [fh]))], true) := by
    simp only [remove_managed_hooks, removePass, hfields]
    simp only [List.filter, hfhm, hmhm, Bool.not_false, Bool.not_true]
    simp [keepEntry, jGet, mapGet_mapSet, JVal.asArr]
  have hr1 : removeEvent hm false STOP_EVENT =
      (mapSet hm STOP_EVENT (.arr [.obj (mapSet fields "hooks" (.arr [fh]))]), true) := by
    simp [removeEvent, show mapGet hm STOP_EVENT = some (.arr [.obj fields]) from hstop, hrmh]
  rw [apply_remove_eq root hm hhooks]
  simp only [hr1]
  have h22 : (removeEvent (mapSet hm STOP_EVENT
      (.arr [.obj (mapSet fields "hooks" (.arr [fh]))])) true SUBAGENT_STOP_EVENT).2 = true :=
    removeEvent_snd_true _ _
  rw [h22]
  have hstop3 : mapGet (removeEvent (removeEvent (mapSet hm STOP_EVENT
      (.arr [.obj (mapSet fields "hooks" (.arr [fh]))])) true SUBAGENT_STOP_EVENT).1 true
      PERMISSION_REQUEST_EVENT).1 "Stop" =
      some (.arr [.obj (mapSet fields "hooks" (.arr [fh]))]) := by
    rw [removeEvent_get_ne _ _ _ _ (by decide : "Stop" ≠ PERMISSION_REQUEST_EVENT),
      removeEvent_get_ne _ _ _ _ (by decide : "Stop" ≠ SUBAGENT_STOP_EVENT)]
    exact mapGet_mapSet hm STOP_EVENT _
  have hne : (removeEvent (removeEvent (mapSet hm STOP_EVENT
      (.arr [.obj (mapSet fields "hooks" (.arr [fh]))])) true SUBAGENT_STOP_EVENT).1 true
      PERMISSION_REQUEST_EVENT).1.isEmpty = false := mapGet_some_isEmpty hstop3
  rw [if_neg (by simp [hne])]
  refine ⟨?_, ?_, ?_⟩
  · simp [jGet, mapGet_mapSet, hstop3]
  · intro k hk
    simp [jGet, mapGet_mapSet_ne _ _ _ _ hk]
  · intro k h1 h2 h3
    have hk : mapGet (removeEvent (removeEvent (mapSet hm STOP_EVENT
        (.arr [.obj (mapSet fields "hooks" (.arr [fh]))])) true SUBAGENT_STOP_EVENT).1 true
        PERMISSION_REQUEST_EVENT).1 k = mapGet hm k := by
      rw [removeEvent_get_ne _ _ _ _ (show k ≠ PERMISSION_REQUEST_EVENT from h3),
        removeEvent_get_ne _ _ _ _ (show k ≠ SUBAGENT_STOP_EVENT from h2),
        mapGet_mapSet_ne _ _ _ _ (show k ≠ STOP_EVENT from h1)]
    simp [jGet, mapGet_mapSet, hk]

/-- C5: starting from an empty JSON object, apply_setup with the managed
command followed by apply_remove returns the document to an empty object
with no leftover hooks key, reporting changed true for the removal. -/
theorem setup_remove_roundtrip (cmd : String) (h : is_managed_command cmd = true) :
    apply_remove (apply_setup (JVal.obj []) cmd).1 = (JVal.obj [], true) := by
  have hsetup : (apply_setup (JVal.obj []) cmd).1 =
      JVal.obj [("hooks", .obj
        [("Stop", .arr [newEntry cmd "*"]),
         ("SubagentStop", .arr [newEntry cmd "*"]),
         ("PermissionRequest", .arr [newEntry cmd "ExitPlanMode"])])] := rfl
  have hman : hookManaged (JVal.obj [("type", JVal.str "command"),
      ("command", JVal.str cmd)]) = true := by
    rw [show hookManaged (JVal.obj [("type", JVal.str "command"), ("command", JVal.str cmd)]) =
      is_managed_command cmd from rfl]
    exact h
  have hrm : ∀ matcher, remove_managed_hooks [newEntry cmd matcher] = ([], true) := by
    intro matcher
    simp [remove_managed_hooks, removePass, newEntry, hman, keepEntry,
      mapGet_mapSet, JVal.asArr, List.filter, jGet, mapGet]
  rw [hsetup]
  simp [apply_remove, removeEvent, hrm, STOP_EVENT, SUBAGENT_STOP_EVENT,
    PERMISSION_REQUEST_EVENT, mapSet, mapRemove]

end Claude

namespace Codex

theorem strItems_map_str (xs : List String) :
    strItems (xs.map TValue.str) = some xs := by
  induction xs with
  | nil => rfl
  | cons x t ih => simp [strItems, TValue.asStr, ih]

theorem extract_set_notify (doc : TDoc) (xs : List String) :
    extract_notify (set_notify doc xs) = some xs := by
  unfold extract_notify set_notify
  rw [mapGet_mapSet]
  simp [TValue.asArr, strItems_map_str]

end Codex

/-- C4: for the Codex mutator, when notify holds a foreign value and the
desired command is managed, apply_setup reports changed, overwrites notify
with the desired command, and stores in previous_notify the already-captured
original when one exists and the foreign value otherwise; the following
apply_remove reports changed, restores exactly the captured value into
notify, and clears previous_notify. -/
theorem codex_capture_restore (doc : Codex.TDoc) (state : LocalState)
    (desired notify : List String)
    (hex : Codex.extract_notify doc = some notify)
    (hforeign : Codex.is_managed_notify notify = false)
    (hdes : Codex.is_managed_notify desired = true) :
    (Codex.apply_setup doc state desired).2.2 = true ∧
    Codex.extract_notify (Codex.apply_setup doc state desired).1 = some desired ∧
    (Codex.apply_setup doc state desired).2.1.codex.previous_notify =
      some (state.codex.previous_notify.getD notify) ∧
    (Codex.apply_remove (Codex.apply_setup doc state desired).1
        (Codex.apply_setup doc state desired).2.1).2.2 = true ∧
    Codex.extract_notify
        (Codex.apply_remove (Codex.apply_setup doc state desired).1
          (Codex.apply_setup doc state desired).2.1).1 =
      some (state.codex.previous_notify.getD notify) ∧
    (Codex.apply_remove (Codex.apply_setup doc state desired).1
        (Codex.apply_setup doc state desired).2.1).2.1.codex.previous_notify = none := by
  have hne : notify ≠ desired := by
    intro hEq
    rw [hEq, hdes] at hforeign
    exact absurd hforeign (by simp)
  cases hp : state.codex.previous_notify with
  | none =>
    simp [Codex.apply_setup, hex, hne, hforeign, hp, Codex.apply_remove,
      Codex.extract_set_notify, hdes]
  | some orig =>
    simp [Codex.apply_setup, hex, hne, hforeign, hp, Codex.apply_remove,
      Codex.extract_set_notify, hdes]

/-- C6: normalize returns none exactly when the discriminator field is
missing, not a string, or outside the fixed table: for Claude when the
hook-event value lies outside Stop, SubagentStop and
PermissionRequest-with-ExitPlanMode, and for Codex when the type value lies
outside the two mapped completion kinds. -/
theorem normalize_none_iff_unmapped (payload : JVal) :
    (normalize Agent.claude payload = none ↔ claudeEventOk payload = false) ∧
    (normalize Agent.codex payload = none ↔ codexEventOk payload = false) := by
  constructor
  · cases payload with
    | obj fields =>
      simp only [normalize, normalize_claude, claudeEventOk]
      cases h : (mapGet fields "hook_event_name").bind JVal.asStr with
      | none => simp [claude_event_kind, h]
      | some s =>
        simp only [claude_event_kind, h]
        by_cases h1 : s = "Stop"
        · simp [h1]
        · by_cases h2 : s = "SubagentStop"
          · simp [h1, h2]
          · by_cases h3 : s = "PermissionRequest"
            · by_cases h4 : is_exit_plan_mode_request fields <;> simp [h1, h2, h3, h4]
            · simp [h1, h2, h3]
    | _ => simp [normalize, normalize_claude, claudeEventOk]
  · cases payload with
    | obj fields =>
      simp only [normalize, normalize_codex, codexEventOk]
      cases h : (mapGet fields "type").bind JVal.asStr with
      | none => simp [h]
      | some s =>
        simp only [h]
        by_cases h1 : s = "agent-turn-complete"
        · simp [codex_event_kind, h1]
        · by_cases h2 : s = "agent-plan-complete" <;> simp [codex_event_kind, h1, h2]
    | _ => simp [normalize, normalize_codex, codexEventOk]

/-- C10: for the generic agent, when the payload carries no usable cwd
string, a normalized event takes project_name from the payload project field
when that field is a present string, and falls back to the string
"unknown project" only otherwise. -/
theorem normalize_generic_project_fallback (m : List (String × JVal)) (ev : NormalizedEvent)
    (hcwd : (mapGet m "cwd").bind JVal.asStr = none)
    (h : normalize Agent.generic (JVal.obj m) = some ev) :
    ev.project_name = ((mapGet m "project").bind JVal.asStr).getD "unknown project" := by
  simp only [normalize, normalize_generic] at h
  cases hk : (((((mapGet m "event_kind").orElse
        (fun _ => mapGet m "event-kind")).orElse
        (fun _ => mapGet m "type")).orElse
        (fun _ => mapGet m "kind")).orElse
        (fun _ => mapGet m "event")).bind JVal.asStr with
  | none => rw [hk] at h; simp at h
  | some ek =>
    rw [hk] at h
    by_cases ht : is_terminal_event ek
    · simp only [ht, Bool.not_true, Bool.false_eq_true, if_false, hcwd] at h
      cases h
      rfl
    · simp [ht] at h

theorem normalize_generic_project_fallback_witness :
    ({ agent := .generic, event_kind := "task-done", cwd := none,
       project_name := "myproj", raw_payload := JVal.obj [("type", JVal.str "task-done"), ("project", JVal.str "myproj")] } : NormalizedEvent).project_name =
      ((mapGet [("type", JVal.str "task-done"), ("project", JVal.str "myproj")] "project").bind JVal.asStr).getD "unknown project" :=
  normalize_generic_project_fallback
    [("type", JVal.str "task-done"), ("project", JVal.str "myproj")]
    { agent := .generic, event_kind := "task-done", cwd := none,
      project_name := "myproj", raw_payload := JVal.obj [("type", JVal.str "task-done"), ("project", JVal.str "myproj")] }
    rfl rfl

/-- C7: render_announcement_message always produces a string, and whenever
the resolved configured template fails to register (syntax error) or renders
only whitespace, the result equals the built-in default message rendered for
that event. -/
theorem render_announcement_fallback (engine : TemplateEngine) (event : NormalizedEvent)
    (templates : TemplateConfig) (labels : EventKindLabelsConfig) (template : String)
    (hres : resolve_template templates event.agent = some template)
    (hbad : engine.registerOk template = false ∨
      ∀ s, engine.renderTpl template
          (context_from_event event (resolve_event_kind_label event labels)) = some s →
        strIsEmpty (strTrim s) = true) :
    render_announcement_message engine event templates labels =
      default_message engine event (resolve_event_kind_label event labels) := by
  have hnone : render_template engine template event
      (resolve_event_kind_label event labels) = none := by
    unfold render_template
    rcases hbad with h | h
    · simp [h]
    · cases hr : engine.renderTpl template
          (context_from_event event (resolve_event_kind_label event labels)) with
      | none => cases hreg : engine.registerOk template <;> simp [hr, Option.filter]
      | some s =>
        have hs := h s hr
        cases hreg : engine.registerOk template <;> simp [hr, Option.filter, hs]
  simp [render_announcement_message, hres, hnone]

/-- C7 witness -/
theorem render_announcement_fallback_witness :
    render_announcement_message
        { registerOk := fun _ => false, renderTpl := fun _ _ => none }
        { agent := .codex, event_kind := "task-end", cwd := none,
          project_name := "backend", raw_payload := .null }
        { global := some "broken" } {} =
      default_message
        { registerOk := fun _ => false, renderTpl := fun _ _ => none }
        { agent := .codex, event_kind := "task-end", cwd := none,
          project_name := "backend", raw_payload := .null }
        (resolve_event_kind_label
          { agent := .codex, event_kind := "task-end", cwd := none,
            project_name := "backend", raw_payload := .null } {}) :=
  render_announcement_fallback
    { registerOk := fun _ => false, renderTpl := fun _ _ => none }
    { agent := .codex, event_kind := "task-end", cwd := none,
      project_name := "backend", raw_payload := .null }
    { global := some "broken" } {} "broken" rfl (Or.inl rfl)

/-- C8 counterexample: with a whitespace-only agent-specific label and a
non-empty global label for the same key, the code resolves to the humanized
event kind, not to the label the claimed precedence order would pick. -/
theorem resolve_label_spec_cex :
    resolve_event_kind_label
        { agent := .codex, event_kind := "task-end", cwd := none,
          project_name := "backend", raw_payload := .null }
        { global := [("task-end", "announcement")],
          agents := { codex := [("task-end", " ")] } } ≠
      resolve_label_spec
        { agent := .codex, event_kind := "task-end", cwd := none,
          project_name := "backend", raw_payload := .null }
        { global := [("task-end", "announcement")],
          agents := { codex := [("task-end", " ")] } } := by
  have h1 : resolve_event_kind_label
      { agent := .codex, event_kind := "task-end", cwd := none,
        project_name := "backend", raw_payload := .null }
      { global := [("task-end", "announcement")],
        agents := { codex := [("task-end", " ")] } } = "task end" := rfl
  have h2 : resolve_label_spec
      { agent := .codex, event_kind := "task-end", cwd := none,
        project_name := "backend", raw_payload := .null }
      { global := [("task-end", "announcement")],
        agents := { codex := [("task-end", " ")] } } = " " := rfl
  rw [h1, h2]
  decide

/-- C8 amended: the event-kind label resolution picks the first present
label among the agent-specific entry, the global entry and the hardcoded
task-end alias, trims it, and uses it only when non-empty after trimming;
when it trims to the empty string, or when no label source is present, the
humanized event kind is used. -/
theorem resolve_label_eq_amended (event : NormalizedEvent) (labels : EventKindLabelsConfig) :
    resolve_event_kind_label event labels = resolve_label_amended event labels := by
  unfold resolve_event_kind_label resolve_label_amended
  cases hfirst : (((mapGet (agent_event_kind_labels labels event.agent)
        (normalize_event_kind_key event.event_kind)).orElse
      (fun _ => mapGet labels.global (normalize_event_kind_key event.event_kind))).orElse
      (fun _ => if normalize_event_kind_key event.event_kind = "task-end" then some "task"
        else none)) with
  | none => simp [hfirst, Option.filter]
  | some label =>
    by_cases he : strIsEmpty (strTrim label) <;> simp [hfirst, Option.filter, he]
namespace Claude

theorem entryClean_of_parts {x : JVal} (h0 : entryClean0 x = true)
    (hk : keepEntry x = true) : entryClean x = true := by
  simp [entryClean, h0, hk]

theorem entryDone_keep {cmd matcher : String} {e : JVal}
    (hd : entryDone cmd matcher e = true) : keepEntry e = true := by
  cases e with
  | obj fields =>
    cases hget : mapGet fields "hooks" with
    | some v =>
      cases v with
      | arr hooks =>
        simp only [entryDone, hget, Bool.and_eq_true] at hd
        simp only [keepEntry, jGet, hget]
        show (!hooks.isEmpty) = true
        rw [onlyDesired_ne_nil hd.2]
        rfl
      | null => simp [entryDone, hget] at hd
      | bool b => simp [entryDone, hget] at hd
      | num n => simp [entryDone, hget] at hd
      | str s => simp [entryDone, hget] at hd
      | obj f2 => simp [entryDone, hget] at hd
    | none => simp [entryDone, hget] at hd
  | null => simp [entryDone] at hd
  | bool b => simp [entryDone] at hd
  | num n => simp [entryDone] at hd
  | str s => simp [entryDone] at hd
  | arr xs => simp [entryDone] at hd

theorem process_done_fix (cmd matcher : String) (l : List JVal)
    (h : arrDone cmd matcher l) :
    processEntries cmd matcher false l = (l, true, false) := by
  obtain ⟨l1, e, l2, rfl, hc1, hd, hc2⟩ := h
  rw [process_append, process_clean_fix cmd matcher l1 false hc1]
  cases e with
  | obj fields =>
    cases hget : mapGet fields "hooks" with
    | some v =>
      cases v with
      | arr hooks =>
        have hdd := hd
        simp only [entryDone, hget, Bool.and_eq_true] at hdd
        simp only [processEntries, hget, hdd.1]
        rw [retainDone_fix cmd hooks hdd.2]
        rw [process_clean_fix cmd matcher l2 true hc2]
        rw [mapSet_self fields "hooks" (JVal.arr hooks) hget]
        simp
      | null => simp [entryDone, hget] at hd
      | bool b => simp [entryDone, hget] at hd
      | num n => simp [entryDone, hget] at hd
      | str s => simp [entryDone, hget] at hd
      | obj f2 => simp [entryDone, hget] at hd
    | none => simp [entryDone, hget] at hd
  | null => simp [entryDone] at hd
  | bool b => simp [entryDone] at hd
  | num n => simp [entryDone] at hd
  | str s => simp [entryDone] at hd
  | arr xs => simp [entryDone] at hd

theorem ensure_fix (cmd matcher : String) (l : List JVal)
    (h : arrDone cmd matcher l) :
    ensure_managed_hook l cmd matcher = (l, false) := by
  have hp := process_done_fix cmd matcher l h
  obtain ⟨l1, e, l2, rfl, hc1, hd, hc2⟩ := h
  have hkeep : (l1 ++ e :: l2).filter keepEntry = l1 ++ e :: l2 := by
    rw [List.filter_append, List.filter_cons, if_pos (entryDone_keep hd)]
    rw [List.filter_eq_self.mpr (fun a ha => (Bool.and_eq_true_iff.mp (hc1 a ha)).2),
      List.filter_eq_self.mpr (fun a ha => (Bool.and_eq_true_iff.mp (hc2 a ha)).2)]
  unfold ensure_managed_hook
  rw [hp]
  simp [hkeep]

theorem entryDone_newEntry (cmd matcher : String) (h : is_managed_command cmd = true) :
    entryDone cmd matcher (newEntry cmd matcher) = true := by
  have h3 : onlyDesired cmd [JVal.obj [("type", JVal.str "command"),
      ("command", JVal.str cmd)]] = true := by
    simp [onlyDesired, hookManaged, hookCmd, jGet, mapGet, JVal.asStr, h, hooksClean]
  have h2 : matcherMatches (JVal.obj [("matcher", JVal.str matcher),
      ("hooks", JVal.arr [JVal.obj [("type", JVal.str "command"),
        ("command", JVal.str cmd)]])]) matcher = true := by
    simp [matcherMatches, jGet, mapGet, JVal.asStr]
  simp [entryDone, newEntry, mapGet, h2, h3]

theorem ensure_arrDone (cmd matcher : String) (l : List JVal)
    (h : is_managed_command cmd = true) :
    arrDone cmd matcher (ensure_managed_hook l cmd matcher).1 := by
  unfold ensure_managed_hook
  cases hp : (processEntries cmd matcher false l).2.1 with
  | true =>
    simp only [hp, if_true]
    obtain ⟨l1, e, l2, heq, hc1, hd, hc2⟩ := (process_false_char cmd matcher l).2 hp
    rw [heq, List.filter_append, List.filter_cons, if_pos (entryDone_keep hd)]
    refine ⟨l1.filter keepEntry, e, l2.filter keepEntry, rfl, ?_, hd, ?_⟩
    · intro x hx
      obtain ⟨hmem, hkeep⟩ := List.mem_filter.mp hx
      exact entryClean_of_parts (hc1 x hmem) hkeep
    · intro x hx
      obtain ⟨hmem, hkeep⟩ := List.mem_filter.mp hx
      exact entryClean_of_parts (hc2 x hmem) hkeep
  | false =>
    simp only [hp, Bool.false_eq_true, if_false]
    have hcl := (process_false_char cmd matcher l).1 hp
    refine ⟨(processEntries cmd matcher false l).1.filter keepEntry,
      newEntry cmd matcher, [], rfl, ?_, entryDone_newEntry cmd matcher h, by simp⟩
    intro x hx
    obtain ⟨hmem, hkeep⟩ := List.mem_filter.mp hx
    exact entryClean_of_parts (hcl x hmem) hkeep

-- setup-level characterization
theorem setupEvents_eq (hm : List (String × JVal)) (cmd : String) :
    setupEvents hm cmd =
      (mapSet (mapSet (mapSet hm STOP_EVENT
          (.arr (ensure_managed_hook (eventArray hm STOP_EVENT) cmd "*").1))
        SUBAGENT_STOP_EVENT
          (.arr (ensure_managed_hook (eventArray (mapSet hm STOP_EVENT
            (.arr (ensure_managed_hook (eventArray hm STOP_EVENT) cmd "*").1))
            SUBAGENT_STOP_EVENT) cmd "*").1))
        PERMISSION_REQUEST_EVENT
          (.arr (ensure_managed_hook (eventArray (mapSet (mapSet hm STOP_EVENT
            (.arr (ensure_managed_hook (eventArray hm STOP_EVENT) cmd "*").1))
            SUBAGENT_STOP_EVENT
            (.arr (ensure_managed_hook (eventArray (mapSet hm STOP_EVENT
              (.arr (ensure_managed_hook (eventArray hm STOP_EVENT) cmd "*").1))
              SUBAGENT_STOP_EVENT) cmd "*").1)) PERMISSION_REQUEST_EVENT) cmd
            PERMISSION_REQUEST_MATCHER).1),
       (ensure_managed_hook (eventArray hm STOP_EVENT) cmd "*").2 ||
        (ensure_managed_hook (eventArray (mapSet hm STOP_EVENT
          (.arr (ensure_managed_hook (eventArray hm STOP_EVENT) cmd "*").1))
          SUBAGENT_STOP_EVENT) cmd "*").2 ||
        (ensure_managed_hook (eventArray (mapSet (mapSet hm STOP_EVENT
          (.arr (ensure_managed_hook (eventArray hm STOP_EVENT) cmd "*").1))
          SUBAGENT_STOP_EVENT
          (.arr (ensure_managed_hook (eventArray (mapSet hm STOP_EVENT
            (.arr (ensure_managed_hook (eventArray hm STOP_EVENT) cmd "*").1))
            SUBAGENT_STOP_EVENT) cmd "*").1)) PERMISSION_REQUEST_EVENT) cmd
          PERMISSION_REQUEST_MATCHER).2) := rfl

/-- The hooks object after setup: three event slots holding arrays in the
done shape. -/
theorem setupEvents_char (hm : List (String × JVal)) (cmd : String)
    (h : is_managed_command cmd = true) :
    ∃ a1 a2 a3,
      (setupEvents hm cmd).1 =
        mapSet (mapSet (mapSet hm STOP_EVENT (.arr a1)) SUBAGENT_STOP_EVENT (.arr a2))
          PERMISSION_REQUEST_EVENT (.arr a3) ∧
      arrDone cmd "*" a1 ∧ arrDone cmd "*" a2 ∧
      arrDone cmd PERMISSION_REQUEST_MATCHER a3 := by
  refine ⟨(ensure_managed_hook (eventArray hm STOP_EVENT) cmd "*").1,
    (ensure_managed_hook (eventArray (mapSet hm STOP_EVENT
      (.arr (ensure_managed_hook (eventArray hm STOP_EVENT) cmd "*").1))
      SUBAGENT_STOP_EVENT) cmd "*").1,
    (ensure_managed_hook (eventArray (mapSet (mapSet hm STOP_EVENT
      (.arr (ensure_managed_hook (eventArray hm STOP_EVENT) cmd "*").1))
      SUBAGENT_STOP_EVENT
      (.arr (ensure_managed_hook (eventArray (mapSet hm STOP_EVENT
        (.arr (ensure_managed_hook (eventArray hm STOP_EVENT) cmd "*").1))
        SUBAGENT_STOP_EVENT) cmd "*").1)) PERMISSION_REQUEST_EVENT) cmd
      PERMISSION_REQUEST_MATCHER).1,
    rfl, ensure_arrDone cmd "*" _ h, ensure_arrDone cmd "*" _ h,
    ensure_arrDone cmd PERMISSION_REQUEST_MATCHER _ h⟩

theorem setupEvents_idem (hm : List (String × JVal)) (cmd : String)
    (h : is_managed_command cmd = true) :
    setupEvents (setupEvents hm cmd).1 cmd = ((setupEvents hm cmd).1, false) := by
  obtain ⟨a1, a2, a3, hT, hd1, hd2, hd3⟩ := setupEvents_char hm cmd h
  rw [hT]
  have hg1 : mapGet (mapSet (mapSet (mapSet hm STOP_EVENT (.arr a1)) SUBAGENT_STOP_EVENT
      (.arr a2)) PERMISSION_REQUEST_EVENT (.arr a3)) STOP_EVENT = some (.arr a1) := by
    rw [mapGet_mapSet_ne _ _ _ _ (by decide), mapGet_mapSet_ne _ _ _ _ (by decide),
      mapGet_mapSet]
  have hg2 : mapGet (mapSet (mapSet (mapSet hm STOP_EVENT (.arr a1)) SUBAGENT_STOP_EVENT
      (.arr a2)) PERMISSION_REQUEST_EVENT (.arr a3)) SUBAGENT_STOP_EVENT =
      some (.arr a2) := by
    rw [mapGet_mapSet_ne _ _ _ _ (by decide), mapGet_mapSet]
  have hg3 : mapGet (mapSet (mapSet (mapSet hm STOP_EVENT (.arr a1)) SUBAGENT_STOP_EVENT
      (.arr a2)) PERMISSION_REQUEST_EVENT (.arr a3)) PERMISSION_REQUEST_EVENT =
      some (.arr a3) := mapGet_mapSet _ _ _
  rw [setupEvents_eq]
  rw [show eventArray (mapSet (mapSet (mapSet hm STOP_EVENT (.arr a1)) SUBAGENT_STOP_EVENT
      (.arr a2)) PERMISSION_REQUEST_EVENT (.arr a3)) STOP_EVENT = a1 from by
    simp [eventArray, hg1]]
  rw [ensure_fix cmd "*" a1 hd1]
  rw [mapSet_self _ _ _ hg1]
  rw [show eventArray (mapSet (mapSet (mapSet hm STOP_EVENT (.arr a1)) SUBAGENT_STOP_EVENT
      (.arr a2)) PERMISSION_REQUEST_EVENT (.arr a3)) SUBAGENT_STOP_EVENT = a2 from by
    simp [eventArray, hg2]]
  rw [ensure_fix cmd "*" a2 hd2]
  rw [mapSet_self _ _ _ hg2]
  rw [show eventArray (mapSet (mapSet (mapSet hm STOP_EVENT (.arr a1)) SUBAGENT_STOP_EVENT
      (.arr a2)) PERMISSION_REQUEST_EVENT (.arr a3)) PERMISSION_REQUEST_EVENT = a3 from by
    simp [eventArray, hg3]]
  rw [ensure_fix cmd PERMISSION_REQUEST_MATCHER a3 hd3]
  rw [mapSet_self _ _ _ hg3]
  rfl

/-- C1 amended: for every document and every command recognized by the
managed-command predicate, a second apply_setup with the same command
reports changed false and returns a document equal to the result of the
first call. -/
theorem apply_setup_idem (doc : JVal) (cmd : String)
    (h : is_managed_command cmd = true) :
    apply_setup (apply_setup doc cmd).1 cmd = ((apply_setup doc cmd).1, false) := by
  have hhf : hooksFields (mapSet (rootFields doc) "hooks"
      (.obj (setupEvents (hooksFields (rootFields doc)) cmd).1)) =
      (setupEvents (hooksFields (rootFields doc)) cmd).1 := by
    simp [hooksFields, mapGet_mapSet]
  have hro : rootFields (JVal.obj (mapSet (rootFields doc) "hooks"
      (.obj (setupEvents (hooksFields (rootFields doc)) cmd).1))) =
      mapSet (rootFields doc) "hooks"
        (.obj (setupEvents (hooksFields (rootFields doc)) cmd).1) := rfl
  simp only [apply_setup]
  rw [hro, hhf]
  rw [setupEvents_idem (hooksFields (rootFields doc)) cmd h]
  simp [mapSet_self _ _ _ (mapGet_mapSet (rootFields doc) "hooks"
    (JVal.obj (setupEvents (hooksFields (rootFields doc)) cmd).1))]

theorem managedCommands_cons (e : JVal) (t : List JVal) :
    managedCommands (e :: t) =
      (match (jGet e "hooks").bind JVal.asArr with
       | some hooks => managedOf hooks
       | none => []) ++ managedCommands t := by
  cases hfe : (jGet e "hooks").bind JVal.asArr with
  | none => simp [managedCommands, managedOf, List.filterMap_cons, hfe]
  | some hooks =>
    simp [managedCommands, managedOf, List.filterMap_cons, hfe, List.filter_append]

theorem managedCommands_append (l1 l2 : List JVal) :
    managedCommands (l1 ++ l2) = managedCommands l1 ++ managedCommands l2 := by
  simp [managedCommands, List.filterMap_append, List.filter_append]

theorem managedOf_clean (hooks : List JVal) (h : hooksClean hooks = true) :
    managedOf hooks = [] := by
  induction hooks with
  | nil => rfl
  | cons hd t ih =>
    simp only [hooksClean, List.all_cons, Bool.and_eq_true] at h
    have hm : is_managed_command (hookCmd hd) = false := by
      have h0 := h.1
      simp only [Bool.not_eq_true'] at h0
      exact h0
    have iht : managedOf t = [] := ih h.2
    cases hg : (jGet hd "command").bind JVal.asStr with
    | none => simpa [managedOf, List.filterMap_cons, hg] using iht
    | some c =>
      have hcc : hookCmd hd = c := by simp [hookCmd, hg]
      rw [hcc] at hm
      simpa [managedOf, List.filterMap_cons, hg, hm] using iht

theorem managedOf_done (cmd : String) (hooks : List JVal)
    (h : onlyDesired cmd hooks = true) : managedOf hooks = [cmd] := by
  induction hooks with
  | nil => simp [onlyDesired] at h
  | cons hd t ih =>
    rw [onlyDesired] at h
    by_cases hh : hookManaged hd
    · rw [if_pos hh] at h
      obtain ⟨hbeq, hclean⟩ := Bool.and_eq_true_iff.mp h
      have hcmd : hookCmd hd = cmd := eq_of_beq hbeq
      cases hg : (jGet hd "command").bind JVal.asStr with
      | none =>
        have hempty : hookCmd hd = "" := by simp [hookCmd, hg]
        have hh2 : is_managed_command (hookCmd hd) = true := hh
        rw [hempty] at hh2
        exact absurd hh2 (by decide)
      | some c =>
        have hcc : hookCmd hd = c := by simp [hookCmd, hg]
        have hmg : is_managed_command c = true := by
          have h0 : is_managed_command (hookCmd hd) = true := hh
          rwa [hcc] at h0
        have hceq : c = cmd := by rw [← hcc]; exact hcmd
        subst hceq
        have htail : managedOf t = [] := managedOf_clean t hclean
        simp only [managedOf, List.filterMap_cons, hg]
        rw [List.filter_cons, if_pos hmg]
        rw [show (t.filterMap fun h => (jGet h "command").bind JVal.asStr).filter
          is_managed_command = managedOf t from rfl, htail]
    · rw [if_neg hh] at h
      have iht := ih h
      have hm : is_managed_command (hookCmd hd) = false := by
        have h0 : hookManaged hd = false := by simp [hh]
        exact h0
      cases hg : (jGet hd "command").bind JVal.asStr with
      | none => simpa [managedOf, List.filterMap_cons, hg] using iht
      | some c =>
        have hcc : hookCmd hd = c := by simp [hookCmd, hg]
        rw [hcc] at hm
        simpa [managedOf, List.filterMap_cons, hg, hm] using iht

theorem contribution_clean (x : JVal) (h : entryClean0 x = true) :
    (match (jGet x "hooks").bind JVal.asArr with
     | some hooks => managedOf hooks
     | none => []) = [] := by
  cases x with
  | obj fields =>
    cases hget : mapGet fields "hooks" with
    | some v =>
      cases v with
      | arr hooks =>
        simp only [entryClean0, hget] at h
        simp only [jGet, hget]
        show managedOf hooks = []
        exact managedOf_clean hooks h
      | null => simp [jGet, hget, JVal.asArr]
      | bool b => simp [jGet, hget, JVal.asArr]
      | num n => simp [jGet, hget, JVal.asArr]
      | str s => simp [jGet, hget, JVal.asArr]
      | obj f2 => simp [jGet, hget, JVal.asArr]
    | none => simp [jGet, hget]
  | null => rfl
  | bool b => rfl
  | num n => rfl
  | str s => rfl
  | arr xs => rfl

theorem contribution_done (cmd matcher : String) (x : JVal)
    (h : entryDone cmd matcher x = true) :
    (match (jGet x "hooks").bind JVal.asArr with
     | some hooks => managedOf hooks
     | none => []) = [cmd] := by
  cases x with
  | obj fields =>
    cases hget : mapGet fields "hooks" with
    | some v =>
      cases v with
      | arr hooks =>
        simp only [entryDone, hget, Bool.and_eq_true] at h
        simp only [jGet, hget]
        show managedOf hooks = [cmd]
        exact managedOf_done cmd hooks h.2
      | null => simp [entryDone, hget] at h
      | bool b => simp [entryDone, hget] at h
      | num n => simp [entryDone, hget] at h
      | str s => simp [entryDone, hget] at h
      | obj f2 => simp [entryDone, hget] at h
    | none => simp [entryDone, hget] at h
  | null => simp [entryDone] at h
  | bool b => simp [entryDone] at h
  | num n => simp [entryDone] at h
  | str s => simp [entryDone] at h
  | arr xs => simp [entryDone] at h

theorem managedCommands_all_clean (l : List JVal)
    (h : ∀ x ∈ l, entryClean0 x = true) : managedCommands l = [] := by
  induction l with
  | nil => rfl
  | cons e t ih =>
    rw [managedCommands_cons, contribution_clean e (h e (List.mem_cons_self e t))]
    exact ih (fun x hx => h x (List.mem_cons_of_mem e hx))

theorem managedCommands_arrDone (cmd matcher : String) (l : List JVal)
    (h : arrDone cmd matcher l) : managedCommands l = [cmd] := by
  obtain ⟨l1, e, l2, rfl, hc1, hd, hc2⟩ := h
  rw [managedCommands_append, managedCommands_cons]
  rw [managedCommands_all_clean l1 (fun x hx =>
    (Bool.and_eq_true_iff.mp (hc1 x hx)).1)]
  rw [managedCommands_all_clean l2 (fun x hx =>
    (Bool.and_eq_true_iff.mp (hc2 x hx)).1)]
  rw [contribution_done cmd matcher e hd]
  rfl

end Claude
namespace Claude

/-- C2 amended: for every document and every command recognized by the
managed-command predicate, after apply_setup each of the three event arrays
contains exactly one hook command satisfying the managed-command predicate,
and that command is byte-identical to the given command. -/
theorem apply_setup_unique_managed (doc : JVal) (cmd : String)
    (h : is_managed_command cmd = true) :
    managedCommands (docEventArray (apply_setup doc cmd).1 STOP_EVENT) = [cmd] ∧
    managedCommands (docEventArray (apply_setup doc cmd).1 SUBAGENT_STOP_EVENT) = [cmd] ∧
    managedCommands (docEventArray (apply_setup doc cmd).1 PERMISSION_REQUEST_EVENT) = [cmd] := by
  obtain ⟨a1, a2, a3, hT, hd1, hd2, hd3⟩ :=
    setupEvents_char (hooksFields (rootFields doc)) cmd h
  have hdoc : (apply_setup doc cmd).1 = JVal.obj (mapSet (rootFields doc) "hooks"
      (.obj (setupEvents (hooksFields (rootFields doc)) cmd).1)) := rfl
  rw [hdoc, hT]
  have hde : ∀ ev, docEventArray (JVal.obj (mapSet (rootFields doc) "hooks"
      (.obj (mapSet (mapSet (mapSet (hooksFields (rootFields doc)) STOP_EVENT (.arr a1))
        SUBAGENT_STOP_EVENT (.arr a2)) PERMISSION_REQUEST_EVENT (.arr a3))))) ev =
      eventArray (mapSet (mapSet (mapSet (hooksFields (rootFields doc)) STOP_EVENT (.arr a1))
        SUBAGENT_STOP_EVENT (.arr a2)) PERMISSION_REQUEST_EVENT (.arr a3)) ev := by
    intro ev
    simp [docEventArray, mapGet_mapSet]
  rw [hde, hde, hde]
  have hg1 : mapGet (mapSet (mapSet (mapSet (hooksFields (rootFields doc)) STOP_EVENT
      (.arr a1)) SUBAGENT_STOP_EVENT (.arr a2)) PERMISSION_REQUEST_EVENT (.arr a3))
      STOP_EVENT = some (.arr a1) := by
    rw [mapGet_mapSet_ne _ _ _ _ (by decide), mapGet_mapSet_ne _ _ _ _ (by decide),
      mapGet_mapSet]
  have hg2 : mapGet (mapSet (mapSet (mapSet (hooksFields (rootFields doc)) STOP_EVENT
      (.arr a1)) SUBAGENT_STOP_EVENT (.arr a2)) PERMISSION_REQUEST_EVENT (.arr a3))
      SUBAGENT_STOP_EVENT = some (.arr a2) := by
    rw [mapGet_mapSet_ne _ _ _ _ (by decide), mapGet_mapSet]
  have hg3 : mapGet (mapSet (mapSet (mapSet (hooksFields (rootFields doc)) STOP_EVENT
      (.arr a1)) SUBAGENT_STOP_EVENT (.arr a2)) PERMISSION_REQUEST_EVENT (.arr a3))
      PERMISSION_REQUEST_EVENT = some (.arr a3) := mapGet_mapSet _ _ _
  refine ⟨?_, ?_, ?_⟩
  · rw [show eventArray (mapSet (mapSet (mapSet (hooksFields (rootFields doc)) STOP_EVENT
      (.arr a1)) SUBAGENT_STOP_EVENT (.arr a2)) PERMISSION_REQUEST_EVENT (.arr a3))
      STOP_EVENT = a1 from by simp [eventArray, hg1]]
    exact managedCommands_arrDone cmd "*" a1 hd1
  · rw [show eventArray (mapSet (mapSet (mapSet (hooksFields (rootFields doc)) STOP_EVENT
      (.arr a1)) SUBAGENT_STOP_EVENT (.arr a2)) PERMISSION_REQUEST_EVENT (.arr a3))
      SUBAGENT_STOP_EVENT = a2 from by simp [eventArray, hg2]]
    exact managedCommands_arrDone cmd "*" a2 hd2
  · rw [show eventArray (mapSet (mapSet (mapSet (hooksFields (rootFields doc)) STOP_EVENT
      (.arr a1)) SUBAGENT_STOP_EVENT (.arr a2)) PERMISSION_REQUEST_EVENT (.arr a3))
      PERMISSION_REQUEST_EVENT = a3 from by simp [eventArray, hg3]]
    exact managedCommands_arrDone cmd PERMISSION_REQUEST_MATCHER a3 hd3

/-- C1 counterexample: with the non-managed command string x, the second
apply_setup on an initially empty document reports changed true and grows
the Stop event array from one entry to two. -/
theorem apply_setup_idem_cex :
    (apply_setup (apply_setup (JVal.obj []) "x").1 "x").2 = true ∧
    (docEventArray (apply_setup (apply_setup (JVal.obj []) "x").1 "x").1
      STOP_EVENT).length = 2 ∧
    (docEventArray (apply_setup (JVal.obj []) "x").1 STOP_EVENT).length = 1 :=
  ⟨rfl, rfl, rfl⟩

/-- C1 witness -/
theorem apply_setup_idem_witness :
    apply_setup (apply_setup (JVal.obj [])
        "ingest --agent claude --source claude-hook").1
        "ingest --agent claude --source claude-hook" =
      ((apply_setup (JVal.obj []) "ingest --agent claude --source claude-hook").1,
        false) :=
  apply_setup_idem (JVal.obj []) "ingest --agent claude --source claude-hook" rfl

/-- C2 counterexample: with the non-managed command string x, the Stop
array after apply_setup contains no command satisfying the managed-command
predicate at all, rather than exactly one equal to x. -/
theorem apply_setup_unique_managed_cex :
    managedCommands (docEventArray (apply_setup (JVal.obj []) "x").1 STOP_EVENT) ≠
      ["x"] := by
  have h : managedCommands (docEventArray (apply_setup (JVal.obj []) "x").1
      STOP_EVENT) = [] := rfl
  rw [h]
  decide

/-- C2 witness -/
theorem apply_setup_unique_managed_witness :
    managedCommands (docEventArray (apply_setup (JVal.obj [])
        "ingest --agent claude --source claude-hook").1 STOP_EVENT) =
      ["ingest --agent claude --source claude-hook"] ∧
    managedCommands (docEventArray (apply_setup (JVal.obj [])
        "ingest --agent claude --source claude-hook").1 SUBAGENT_STOP_EVENT) =
      ["ingest --agent claude --source claude-hook"] ∧
    managedCommands (docEventArray (apply_setup (JVal.obj [])
        "ingest --agent claude --source claude-hook").1 PERMISSION_REQUEST_EVENT) =
      ["ingest --agent claude --source claude-hook"] :=
  apply_setup_unique_managed (JVal.obj []) "ingest --agent claude --source claude-hook" rfl

/-- C5 witness -/
theorem setup_remove_roundtrip_witness :
    apply_remove (apply_setup (JVal.obj [])
        "ingest --agent claude --source claude-hook").1 = (JVal.obj [], true) :=
  setup_remove_roundtrip "ingest --agent claude --source claude-hook" rfl

end Claude

/-- C9 witness -/
theorem apply_remove_prunes_empty_event_witness :
    (Claude.apply_remove (.obj [("hooks", .obj [("Stop", JVal.arr [])])])).2 = true ∧
    ((jGet (Claude.apply_remove (.obj [("hooks",
        .obj [("Stop", JVal.arr [])])])).1 "hooks").bind
      (fun v => jGet v "Stop") = none) ∧
    ([("Stop", JVal.arr [])] = [("Stop", JVal.arr [])] →
      jGet (Claude.apply_remove (.obj [("hooks",
        .obj [("Stop", JVal.arr [])])])).1 "hooks" = none) :=
  Claude.apply_remove_prunes_empty_event [("hooks", .obj [("Stop", JVal.arr [])])]
    [("Stop", JVal.arr [])] rfl rfl

/-- C3 witness -/
theorem apply_remove_preserves_foreign_witness :
    ((jGet (Claude.apply_remove (JVal.obj [("hooks", JVal.obj [("Stop", JVal.arr [JVal.obj [("hooks", JVal.arr [JVal.obj [("type", JVal.str "command"), ("command", JVal.str "echo custom")], JVal.obj [("type", JVal.str "command"), ("command", JVal.str "ingest --agent claude --source claude-hook")]])]])]), ("user", JVal.str "keep")])).1 "hooks").bind
      (fun v => jGet v "Stop")) =
      some (.arr [.obj (mapSet [("hooks", JVal.arr [JVal.obj [("type", JVal.str "command"), ("command", JVal.str "echo custom")], JVal.obj [("type", JVal.str "command"), ("command", JVal.str "ingest --agent claude --source claude-hook")]])] "hooks" (.arr [JVal.obj [("type", JVal.str "command"), ("command", JVal.str "echo custom")]]))]) :=
  (Claude.apply_remove_preserves_foreign
    [("hooks", JVal.obj [("Stop", JVal.arr [JVal.obj [("hooks", JVal.arr [JVal.obj [("type", JVal.str "command"), ("command", JVal.str "echo custom")], JVal.obj [("type", JVal.str "command"), ("command", JVal.str "ingest --agent claude --source claude-hook")]])]])]), ("user", JVal.str "keep")]
    [("Stop", JVal.arr [JVal.obj [("hooks", JVal.arr [JVal.obj [("type", JVal.str "command"), ("command", JVal.str "echo custom")], JVal.obj [("type", JVal.str "command"), ("command", JVal.str "ingest --agent claude --source claude-hook")]])]])]
    [("hooks", JVal.arr [JVal.obj [("type", JVal.str "command"), ("command", JVal.str "echo custom")], JVal.obj [("type", JVal.str "command"), ("command", JVal.str "ingest --agent claude --source claude-hook")]])]
    (JVal.obj [("type", JVal.str "command"), ("command", JVal.str "echo custom")])
    (JVal.obj [("type", JVal.str "command"), ("command", JVal.str "ingest --agent claude --source claude-hook")])
    "echo custom" "ingest --agent claude --source claude-hook"
    rfl rfl rfl rfl rfl rfl rfl).1

/-- C4 witness -/
theorem codex_capture_restore_witness :
    (Codex.apply_setup [("notify", Codex.TValue.arr [Codex.TValue.str "notify-send",
        Codex.TValue.str "Codex"])] {}
        (Codex.managed_notify_command "/tmp/agitiser-notify")).2.2 = true ∧
    Codex.extract_notify (Codex.apply_setup [("notify", Codex.TValue.arr
        [Codex.TValue.str "notify-send", Codex.TValue.str "Codex"])] {}
        (Codex.managed_notify_command "/tmp/agitiser-notify")).1 =
      some (Codex.managed_notify_command "/tmp/agitiser-notify") ∧
    (Codex.apply_setup [("notify", Codex.TValue.arr [Codex.TValue.str "notify-send",
        Codex.TValue.str "Codex"])] {}
        (Codex.managed_notify_command "/tmp/agitiser-notify")).2.1.codex.previous_notify =
      some (({} : LocalState).codex.previous_notify.getD ["notify-send", "Codex"]) ∧
    (Codex.apply_remove (Codex.apply_setup [("notify", Codex.TValue.arr
          [Codex.TValue.str "notify-send", Codex.TValue.str "Codex"])] {}
          (Codex.managed_notify_command "/tmp/agitiser-notify")).1
        (Codex.apply_setup [("notify", Codex.TValue.arr [Codex.TValue.str "notify-send",
          Codex.TValue.str "Codex"])] {}
          (Codex.managed_notify_command "/tmp/agitiser-notify")).2.1).2.2 = true ∧
    Codex.extract_notify
        (Codex.apply_remove (Codex.apply_setup [("notify", Codex.TValue.arr
            [Codex.TValue.str "notify-send", Codex.TValue.str "Codex"])] {}
            (Codex.managed_notify_command "/tmp/agitiser-notify")).1
          (Codex.apply_setup [("notify", Codex.TValue.arr [Codex.TValue.str "notify-send",
            Codex.TValue.str "Codex"])] {}
            (Codex.managed_notify_command "/tmp/agitiser-notify")).2.1).1 =
      some (({} : LocalState).codex.previous_notify.getD ["notify-send", "Codex"]) ∧
    (Codex.apply_remove (Codex.apply_setup [("notify", Codex.TValue.arr
          [Codex.TValue.str "notify-send", Codex.TValue.str "Codex"])] {}
          (Codex.managed_notify_command "/tmp/agitiser-notify")).1
        (Codex.apply_setup [("notify", Codex.TValue.arr [Codex.TValue.str "notify-send",
          Codex.TValue.str "Codex"])] {}
          (Codex.managed_notify_command
            "/tmp/agitiser-notify")).2.1).2.1.codex.previous_notify = none :=
  codex_capture_restore
    [("notify", Codex.TValue.arr [Codex.TValue.str "notify-send",
      Codex.TValue.str "Codex"])] {}
    (Codex.managed_notify_command "/tmp/agitiser-notify") ["notify-send", "Codex"]
    rfl rfl rfl
end Agitiser
